import Mathlib

/-!
Verification of the layered configuration resolution engine of the
`optimize-go` repository (packages `pkg/config`): named-collection merge
(`merge.go`), default resolution (`defaults.go`), the credential model with
its custom JSON (de)serialization (`config.go`), and the change pipeline
(`update.go`).

The Go source is shallowly embedded: structs become Lean structures (field
names kept as in the Go source), in-place mutation becomes explicit state
passing, and fallible operations return `Except String` carrying the exact
`fmt.Errorf` message produced by the source.

Go iterates maps (`for k, v := range idx`) in an unspecified order.  The
merge functions are therefore parameterized by an enumeration function
`σ : EnumFn` applied to the residue of the map before it is appended; any
`σ` producing a permutation of the canonical residue list (`IsEnum σ`) is
an admissible execution of the Go code.
-/

set_option autoImplicit false

deriving instance DecidableEq for Except

namespace config

/-! ## Data model (config.go) -/

/-- APIServer is the API server metadata. -/
structure APIServer where
  ApplicationsEndpoint : String
  ExperimentsEndpoint : String
  AccountsEndpoint : String
  PerformanceTokenEndpoint : String
  RegistryRegistrationEndpoint : String
  deriving DecidableEq

/-- ApplicationServer is the user facing application. -/
structure ApplicationServer where
  BaseURL : String
  AuthSuccessEndpoint : String
  deriving DecidableEq

/-- AuthorizationServer is the authorization server metadata (RFC 8414 shape). -/
structure AuthorizationServer where
  Issuer : String
  AuthorizationEndpoint : String
  TokenEndpoint : String
  RevocationEndpoint : String
  RegistrationEndpoint : String
  DeviceAuthorizationEndpoint : String
  JSONWebKeySetURI : String
  deriving DecidableEq

/-- Server describes how to communicate with a StormForge API server. -/
structure Server where
  Identifier : String
  API : APIServer
  Authorization : AuthorizationServer
  Application : ApplicationServer
  deriving DecidableEq

/-- Model of Go's `time.Time` restricted to UTC civil time: the broken-down
representation used by the RFC 3339 serialization in the source.  `Nano` is
the sub-second component; `time.RFC3339` formatting drops it. -/
structure GoTime where
  Year : Nat
  Month : Nat
  Day : Nat
  Hour : Nat
  Minute : Nat
  Second : Nat
  Nano : Nat
  deriving DecidableEq

/-- The zero value of Go's `time.Time`: January 1, year 1, 00:00:00 UTC. -/
def GoTime.zero : GoTime := ⟨1, 1, 1, 0, 0, 0, 0⟩

/-- `t.IsZero` reports whether `t` is the zero time (`time.Time.IsZero`). -/
def GoTime.IsZero (t : GoTime) : Bool := t = GoTime.zero

/-- TokenCredential represents a token based credential. -/
structure TokenCredential where
  AccessToken : String
  TokenType : String
  RefreshToken : String
  Expiry : GoTime
  deriving DecidableEq

/-- ClientCredential represents a machine-to-machine credential. -/
structure ClientCredential where
  ClientID : String
  ClientSecret : String
  Scope : String
  deriving DecidableEq

/-- Credential: a pair of optional variant pointers, as in the Go struct
(`*TokenCredential` and `*ClientCredential` embedded; `none` is a nil
pointer). -/
structure Credential where
  TokenCredential : Option TokenCredential
  ClientCredential : Option ClientCredential
  deriving DecidableEq

/-- Authorization contains information about remote server authorizations. -/
structure Authorization where
  Credential : Credential
  deriving DecidableEq

/-- Cluster contains information about communicating with a Kubernetes
cluster.  Go's `Namespace` field is kept under the same name. -/
structure Cluster where
  KubeConfig : String
  Context : String
  Namespace : String
  Bin : String
  Controller : String
  deriving DecidableEq

/-- ControllerEnvVar is a (name, value) environment variable pair. -/
structure ControllerEnvVar where
  Name : String
  Value : String
  deriving DecidableEq

/-- Controller contains additional controller configuration. -/
structure Controller where
  DeploymentName : String
  Namespace : String
  RegistrationClientURI : String
  RegistrationAccessToken : String
  Env : List ControllerEnvVar
  deriving DecidableEq

/-- Context references a server, an authorization and a cluster by name. -/
structure Context where
  Server : String
  Authorization : String
  Cluster : String
  deriving DecidableEq

/-- A named entry of a collection.  The Go source has five monomorphic copies
(`NamedServer`, `NamedAuthorization`, `NamedCluster`, `NamedController`,
`NamedContext`), each a `(Name, body)` pair; `Body` stands for the
respective body field (`.Server`, `.Authorization`, ...). -/
structure Named (β : Type) where
  Name : String
  Body : β
  deriving DecidableEq

/-- Config is the top level configuration structure. -/
structure Config where
  Servers : List (Named Server)
  Authorizations : List (Named Authorization)
  Clusters : List (Named Cluster)
  Controllers : List (Named Controller)
  Contexts : List (Named Context)
  CurrentContext : String
  Environment : String
  deriving DecidableEq

/-- Zero value of `Server` (all strings empty), as produced by Go composite
literals like `NamedServer{Name: "default"}`. -/
def emptyServer : Server :=
  ⟨"", ⟨"", "", "", "", ""⟩, ⟨"", "", "", "", "", "", ""⟩, ⟨"", ""⟩⟩

/-- Zero value of `Authorization` (both credential pointers nil). -/
def emptyAuthorization : Authorization := ⟨⟨none, none⟩⟩

/-- Zero value of `Cluster`. -/
def emptyCluster : Cluster := ⟨"", "", "", "", ""⟩

/-- Zero value of `Controller`. -/
def emptyController : Controller := ⟨"", "", "", "", []⟩

/-- Zero value of `Context`. -/
def emptyContext : Context := ⟨"", "", ""⟩

/-- The all-empty `Config` (Go zero value). -/
def emptyConfig : Config := ⟨[], [], [], [], [], "", ""⟩

/-- `strings.ToLower` (ASCII range, which is all the change pipeline
compares): character-wise lowering over the string's characters. -/
def toLowerStr (s : String) : String := String.mk (s.data.map Char.toLower)

/-- Helper for `splitOnDot`: accumulate the current field (reversed). -/
def splitDotAux : List Char → List Char → List String
  | [], acc => [String.mk acc.reverse]
  | c :: rest, acc =>
      if c = '.' then String.mk acc.reverse :: splitDotAux rest []
      else splitDotAux rest (c :: acc)

/-- `strings.Split(s, ".")`: the dot-separated fields of `s` (the empty
string yields `[""]`, as in Go). -/
def splitOnDot (s : String) : List String := splitDotAux s.data []

/-- First-match-by-name lookup, the common shape of `findServer`,
`findAuthorization`, `findCluster`, `findController`, `findContext`
(merge.go): returns the body of the first entry with the given name. -/
def findNamed {β : Type} : List (Named β) → String → Option β
  | [], _ => none
  | e :: rest, n => if e.Name = n then some e.Body else findNamed rest n

/-- The execution environment constants.  Modelled from the spec: the
constant declarations are not under `src/`, but §3 of the spec fixes the
values (`production` (default/empty), `staging`, `development`) and
`update.go` normalizes the aliases onto them. -/
def environmentProduction : String := "production"

/-- See `environmentProduction`. -/
def environmentStaging : String := "staging"

/-- See `environmentProduction`. -/
def environmentDevelopment : String := "development"

/-! ## Merge primitives (merge.go)

`EnumFn` supplies the iteration order for residual Go map entries. -/

/-- An enumeration strategy for Go map iteration: rearranges a canonical
association list before it is ranged over. -/
def EnumFn : Type 1 := {α : Type} → List α → List α

/-- `σ` is an admissible Go map enumeration when it permutes its input. -/
def IsEnum (σ : EnumFn) : Prop := ∀ (α : Type) (l : List α), List.Perm (@σ α l) l

/-- The identity enumeration (one admissible execution). -/
def idEnum : EnumFn := fun l => l

/-- The reversing enumeration (another admissible execution). -/
def revEnum : EnumFn := fun l => l.reverse

theorem isEnum_idEnum : IsEnum idEnum := fun _ l => List.Perm.refl l

theorem isEnum_revEnum : IsEnum revEnum := fun _ l => List.reverse_perm l

/-- mergeString overwrites s1 with a non-empty value of s2. -/
def mergeString (s1 s2 : String) : String := if s2 ≠ "" then s2 else s1

/-- Go map assignment `idx[k] = v` on the canonical association list:
overwrite the value of an existing key in place, else append the key. -/
def goInsert {β : Type} : List (String × β) → String → β → List (String × β)
  | [], k, v => [(k, v)]
  | (k', v') :: rest, k, v =>
      if k' = k then (k', v) :: rest else (k', v') :: goInsert rest k v

/-- Go map lookup on the canonical association list. -/
def findKey {β : Type} : List (String × β) → String → Option β
  | [], _ => none
  | (k', v') :: rest, k => if k' = k then some v' else findKey rest k

/-- Go map `delete` on the canonical association list. -/
def eraseKey {β : Type} : List (String × β) → String → List (String × β)
  | [], _ => []
  | (k', v') :: rest, k =>
      if k' = k then rest else (k', v') :: eraseKey rest k

/-- The index built by the first loop of each `mergeXs` function:
`idx[overlay[i].Name] = overlay[i].body` for i in order. -/
def buildIdx {β : Type} (overlay : List (Named β)) : List (String × β) :=
  overlay.foldl (fun idx e => goInsert idx e.Name e.Body) []

/-- The second loop of each `mergeXs` function: walk the base entries,
merging and consuming same-named index entries; returns the updated base
entries and the residual index. -/
def mergeNamedLoop {β : Type} (mergeB : β → β → β) :
    List (Named β) → List (String × β) → List (Named β) × List (String × β)
  | [], idx => ([], idx)
  | e :: rest, idx =>
      match findKey idx e.Name with
      | some b =>
          let r := mergeNamedLoop mergeB rest (eraseKey idx e.Name)
          (⟨e.Name, mergeB e.Body b⟩ :: r.1, r.2)
      | none =>
          let r := mergeNamedLoop mergeB rest idx
          (e :: r.1, r.2)

/-- The common shape of `mergeServers` .. `mergeContexts` (merge.go): index
the overlay, merge-and-consume into the base, then append the residue in
map-iteration order `σ`. -/
def mergeNamed {β : Type} (σ : EnumFn) (mergeB : β → β → β)
    (base overlay : List (Named β)) : List (Named β) :=
  let p := mergeNamedLoop mergeB base (buildIdx overlay)
  p.1 ++ (σ p.2).map (fun kv => ⟨kv.1, kv.2⟩)

/-- mergeServer (merge.go).  Note the source does not merge
`API.ApplicationsEndpoint`, `API.PerformanceTokenEndpoint` or
`API.RegistryRegistrationEndpoint`; those keep the base value. -/
def mergeServer (s1 s2 : Server) : Server :=
  { Identifier := mergeString s1.Identifier s2.Identifier
    API :=
      { ApplicationsEndpoint := s1.API.ApplicationsEndpoint
        ExperimentsEndpoint := mergeString s1.API.ExperimentsEndpoint s2.API.ExperimentsEndpoint
        AccountsEndpoint := mergeString s1.API.AccountsEndpoint s2.API.AccountsEndpoint
        PerformanceTokenEndpoint := s1.API.PerformanceTokenEndpoint
        RegistryRegistrationEndpoint := s1.API.RegistryRegistrationEndpoint }
    Authorization :=
      { Issuer := mergeString s1.Authorization.Issuer s2.Authorization.Issuer
        AuthorizationEndpoint := mergeString s1.Authorization.AuthorizationEndpoint s2.Authorization.AuthorizationEndpoint
        TokenEndpoint := mergeString s1.Authorization.TokenEndpoint s2.Authorization.TokenEndpoint
        RevocationEndpoint := mergeString s1.Authorization.RevocationEndpoint s2.Authorization.RevocationEndpoint
        RegistrationEndpoint := mergeString s1.Authorization.RegistrationEndpoint s2.Authorization.RegistrationEndpoint
        DeviceAuthorizationEndpoint := mergeString s1.Authorization.DeviceAuthorizationEndpoint s2.Authorization.DeviceAuthorizationEndpoint
        JSONWebKeySetURI := mergeString s1.Authorization.JSONWebKeySetURI s2.Authorization.JSONWebKeySetURI }
    Application :=
      { BaseURL := mergeString s1.Application.BaseURL s2.Application.BaseURL
        AuthSuccessEndpoint := mergeString s1.Application.AuthSuccessEndpoint s2.Application.AuthSuccessEndpoint } }

/-- mergeAuthorization (merge.go): credentials are not field-merged; a
complete overlay token credential (then a complete overlay client
credential) replaces the whole credential, clearing the other variant. -/
def mergeAuthorization (a1 a2 : Authorization) : Authorization :=
  let c1 :=
    match a2.Credential.TokenCredential with
    | some tc =>
        if tc.AccessToken ≠ "" then
          { TokenCredential := some tc, ClientCredential := none }
        else a1.Credential
    | none => a1.Credential
  let c2 :=
    match a2.Credential.ClientCredential with
    | some cc =>
        if cc.ClientID ≠ "" then
          { TokenCredential := none, ClientCredential := some cc }
        else c1
    | none => c1
  ⟨c2⟩

/-- mergeCluster (merge.go). -/
def mergeCluster (c1 c2 : Cluster) : Cluster :=
  { KubeConfig := mergeString c1.KubeConfig c2.KubeConfig
    Context := mergeString c1.Context c2.Context
    Namespace := mergeString c1.Namespace c2.Namespace
    Bin := mergeString c1.Bin c2.Bin
    Controller := mergeString c1.Controller c2.Controller }

/-- The env index of mergeController: `idx[Name] = Value` over the overlay
env in order. -/
def buildEnvIdx (env : List ControllerEnvVar) : List (String × String) :=
  env.foldl (fun idx e => goInsert idx e.Name e.Value) []

/-- The base-env loop of mergeController: a base variable takes the overlay
value when the index holds a non-empty value for its name (consuming the
key); a missing key reads as `""` in Go and leaves the variable alone. -/
def mergeEnvLoop :
    List ControllerEnvVar → List (String × String) →
      List ControllerEnvVar × List (String × String)
  | [], idx => ([], idx)
  | e :: rest, idx =>
      let v := (findKey idx e.Name).getD ""
      if v ≠ "" then
        let r := mergeEnvLoop rest (eraseKey idx e.Name)
        (⟨e.Name, v⟩ :: r.1, r.2)
      else
        let r := mergeEnvLoop rest idx
        (e :: r.1, r.2)

/-- The env-sequence merge inside mergeController (merge.go): update
same-named base variables in place, then append every residual index entry
(including empty-valued ones) in map-iteration order `σ`. -/
def mergeEnv (σ : EnumFn) (e1 e2 : List ControllerEnvVar) : List ControllerEnvVar :=
  let p := mergeEnvLoop e1 (buildEnvIdx e2)
  p.1 ++ (σ p.2).map (fun kv => ⟨kv.1, kv.2⟩)

/-- mergeController (merge.go).  `DeploymentName` is not merged by the
source. -/
def mergeController (σ : EnumFn) (c1 c2 : Controller) : Controller :=
  { DeploymentName := c1.DeploymentName
    Namespace := mergeString c1.Namespace c2.Namespace
    RegistrationClientURI := mergeString c1.RegistrationClientURI c2.RegistrationClientURI
    RegistrationAccessToken := mergeString c1.RegistrationAccessToken c2.RegistrationAccessToken
    Env := mergeEnv σ c1.Env c2.Env }

/-- mergeContext (merge.go). -/
def mergeContext (c1 c2 : Context) : Context :=
  { Server := mergeString c1.Server c2.Server
    Authorization := mergeString c1.Authorization c2.Authorization
    Cluster := mergeString c1.Cluster c2.Cluster }

/-- mergeConfig (merge.go): merge the five named collections and the two
scalar fields. -/
def mergeConfig (σ : EnumFn) (c1 c2 : Config) : Config :=
  { Servers := mergeNamed σ mergeServer c1.Servers c2.Servers
    Authorizations := mergeNamed σ mergeAuthorization c1.Authorizations c2.Authorizations
    Clusters := mergeNamed σ mergeCluster c1.Clusters c2.Clusters
    Controllers := mergeNamed σ (mergeController σ) c1.Controllers c2.Controllers
    Contexts := mergeNamed σ mergeContext c1.Contexts c2.Contexts
    CurrentContext := mergeString c1.CurrentContext c2.CurrentContext
    Environment := mergeString c1.Environment c2.Environment }

/-! ## Change pipeline (update.go)

A `Change` is a pure configuration-to-configuration-or-error function
(spec §4.4); the Go closures mutate `*Config` in place and return `error`,
which embeds as `Config → Except String Config`.  Every error path below
returns before mutating, so an `.error` result leaves the aggregate
untouched by construction. -/

/-- The `Change` function type. -/
def Change : Type := Config → Except String Config

/-- The normalization switch of SetExecutionEnvironment (update.go): a
non-empty raw value is lowercased and mapped onto its canonical constant,
or rejected. -/
def normalizeEnvironment (env : String) : Except String String :=
  if env ≠ "" then
    match toLowerStr env with
    | "production" | "prod" => .ok environmentProduction
    | "staging" | "stage" => .ok environmentStaging
    | "development" | "dev" => .ok environmentDevelopment
    | _ => .error ("unknown environment: " ++ env)
  else .ok env

/-- SetExecutionEnvironment (update.go): normalize and validate the
environment name, merge it (empty input merges as a no-op), and never
persist the literal production value. -/
def SetExecutionEnvironment (env : String) : Change := fun cfg =>
  match normalizeEnvironment env with
  | .error e => .error e
  | .ok env =>
      let e := mergeString cfg.Environment env
      .ok { cfg with Environment := if e = environmentProduction then "" else e }

/-- In-place mutation through the pointer returned by a `findX` helper:
update the body of the first entry with the given name. -/
def updateFirstNamed {β : Type} :
    List (Named β) → String → (β → β) → List (Named β)
  | [], _, _ => []
  | e :: rest, n, f =>
      if e.Name = n then ⟨e.Name, f e.Body⟩ :: rest
      else e :: updateFirstNamed rest n f

/-- setClusterProperty (update.go). -/
def setClusterProperty (cfg : Config) (clusterName name value : String) :
    Except String Config :=
  match findNamed cfg.Clusters clusterName with
  | none => .error ("unknown cluster: " ++ clusterName)
  | some _ =>
      let upd (f : Cluster → Cluster) : Config :=
        { cfg with Clusters := updateFirstNamed cfg.Clusters clusterName f }
      match name with
      | "context" => .ok (upd (fun c => { c with Context := value }))
      | "bin" => .ok (upd (fun c => { c with Bin := value }))
      | "controller" => .ok (upd (fun c => { c with Controller := value }))
      | _ => .error ("unknown config property: " ++ name)

/-- setContextProperty (update.go): each context reference is validated
against the corresponding collection before assignment. -/
def setContextProperty (cfg : Config) (contextName name value : String) :
    Except String Config :=
  match findNamed cfg.Contexts contextName with
  | none => .error ("unknown context: " ++ contextName)
  | some _ =>
      let upd (f : Context → Context) : Config :=
        { cfg with Contexts := updateFirstNamed cfg.Contexts contextName f }
      match name with
      | "server" =>
          if (findNamed cfg.Servers value).isNone then
            .error ("unknown " ++ name ++ " reference: " ++ value)
          else .ok (upd (fun c => { c with Server := value }))
      | "authorization" =>
          if (findNamed cfg.Authorizations value).isNone then
            .error ("unknown " ++ name ++ " reference: " ++ value)
          else .ok (upd (fun c => { c with Authorization := value }))
      | "cluster" =>
          if (findNamed cfg.Clusters value).isNone then
            .error ("unknown " ++ name ++ " reference: " ++ value)
          else .ok (upd (fun c => { c with Cluster := value }))
      | _ => .error ("unknown config property: " ++ name)

/-- `mergeControllers` applied to a configuration (merge.go), as invoked by
the `controller.<name>.env.<var>` arm of SetProperty. -/
def mergeControllersOnly (σ : EnumFn) (cfg : Config)
    (controllers : List (Named Controller)) : Config :=
  { cfg with Controllers := mergeNamed σ (mergeController σ) cfg.Controllers controllers }

/-- SetProperty (update.go): the literal name `env` delegates to
`SetExecutionEnvironment`; otherwise the dotted path is split and matched
against the fixed grammar.  The `controller.<name>.env.<var>` case merges a
one-entry controller overlay (the iterated maps are singletons, so every
admissible enumeration agrees and `idEnum` is used). -/
def SetProperty (name value : String) : Change := fun cfg =>
  if name = "env" then SetExecutionEnvironment value cfg
  else
    match splitOnDot name with
    | "current-context" :: _ => .ok { cfg with CurrentContext := value }
    | ["cluster", p1, p2] => setClusterProperty cfg p1 p2 value
    | ["controller", p1, "env", p3] =>
        .ok (mergeControllersOnly idEnum cfg
          [⟨p1, { emptyController with Env := [⟨p3, value⟩] }⟩])
    | ["context", p1, p2] => setContextProperty cfg p1 p2 value
    | _ => .error ("unknown config property: " ++ name)

/-! ## Default resolution (defaults.go)

The default loader reads the current environment through
`OptimizeConfig.Environment()` and the bootstrap cluster name through an
external `kubectl` probe; both enter the embedding as explicit values: the
probe result is the `clusterName` parameter (the probe never returns an
empty string; it falls back to the literal `"default"`), and the
environment accessor is `resolvedEnvironment` below. -/

/-- Modelled from the spec: `OptimizeConfig.Environment()` is not under
`src/`; per spec §3 the environment is "one of production (default/empty),
staging, development", so the accessor resolves the empty field to
production. -/
def resolvedEnvironment (c : Config) : String :=
  if c.Environment = "" then environmentProduction else c.Environment

/-- defaultString overwrites an empty s1 with the value of s2. -/
def defaultString (s1 s2 : String) : String := if s1 = "" then s2 else s1

/-- The common shape of one defaultServerRoots branch: fill the three root
fields from their per-environment constants. -/
def rootsApply (c1 c2 c3 : String) (srv : Server) : Server :=
  { srv with
    Identifier := defaultString srv.Identifier c1
    Authorization := { srv.Authorization with
      Issuer := defaultString srv.Authorization.Issuer c2 }
    Application := { srv.Application with
      BaseURL := defaultString srv.Application.BaseURL c3 } }

/-- defaultServerRoots (defaults.go): fill identifier, issuer and base URL
from the fixed per-environment table; an unknown environment is a fatal
configuration error. -/
def defaultServerRoots (env : String) (srv : Server) : Except String Server :=
  if env = environmentProduction then
    .ok { srv with
      Identifier := defaultString srv.Identifier "https://api.stormforge.io/"
      Authorization := { srv.Authorization with
        Issuer := defaultString srv.Authorization.Issuer "https://auth.stormforge.io/" }
      Application := { srv.Application with
        BaseURL := defaultString srv.Application.BaseURL "https://app.stormforge.io/" } }
  else if env = environmentStaging then
    .ok { srv with
      Identifier := defaultString srv.Identifier "https://api.stormforge.dev/"
      Authorization := { srv.Authorization with
        Issuer := defaultString srv.Authorization.Issuer "https://auth.stormforge.dev/" }
      Application := { srv.Application with
        BaseURL := defaultString srv.Application.BaseURL "https://app.stormforge.dev/" } }
  else if env = environmentDevelopment then
    .ok { srv with
      Identifier := defaultString srv.Identifier "https://api.dev-1.dev.gramlabs.dev/"
      Authorization := { srv.Authorization with
        Issuer := defaultString srv.Authorization.Issuer "https://auth.dev-1.dev.gramlabs.dev/" }
      Application := { srv.Application with
        BaseURL := defaultString srv.Application.BaseURL "https://app.dev-1.dev.gramlabs.dev/" } }
  else
    .error ("unknown environment: '" ++ env ++ "'")

/-- Strip every trailing `/` from a URL string. -/
def stripTrailingSlash (s : String) : String :=
  String.mk (s.data.reverse.dropWhile (fun c => c = '/')).reverse

/-- Modelled from the spec: `discovery.IssuerURL` (package
`pkg/oauth2/discovery`, not under `src/`) validates a non-empty issuer
location and yields it without a trailing slash, so that fixed path
suffixes can be appended (spec §4.2 step 3). -/
def discoveryIssuerURL (s : String) : Except String String :=
  if s = "" then .error "missing issuer identifier"
  else .ok (stripTrailingSlash s)

/-- Modelled from the spec: `discovery.WellKnownURI` (same missing package)
places a name under the issuer's `/.well-known/` path. -/
def wellKnownURI (issuer name : String) : String :=
  stripTrailingSlash issuer ++ "/.well-known/" ++ name

/-- `url.Parse` + `path.Join(u.Path, seg)` + `u.String()` on the accounts
endpoint (defaults.go): append a path segment, collapsing the trailing
slash.  The Go `url.Parse` error branch (which falls back to
`api + "/v1/accounts/" + seg`) is unreachable for the strings this model
produces and is not represented. -/
def urlAppendSegment (u seg : String) : String :=
  stripTrailingSlash u ++ "/" ++ seg

/-- The pure body of defaultServerEndpoints (defaults.go) once the two
issuer URLs are resolved: fill every endpoint that is still empty.  The
accounts endpoint is defaulted before the registration endpoints are
derived from it, as in the source's sequential mutation. -/
def applyEndpointDefaults (api issuer : String) (srv : Server) : Server :=
  let acc := defaultString srv.API.AccountsEndpoint (api ++ "/v1/accounts/")
  { srv with
    API := { srv.API with
      ApplicationsEndpoint := defaultString srv.API.ApplicationsEndpoint (api ++ "/v2/applications/")
      ExperimentsEndpoint := defaultString srv.API.ExperimentsEndpoint (api ++ "/v1/experiments/")
      AccountsEndpoint := acc
      PerformanceTokenEndpoint := defaultString srv.API.PerformanceTokenEndpoint "https://app.stormforger.com/optimize/oauth/tokens"
      RegistryRegistrationEndpoint := defaultString srv.API.RegistryRegistrationEndpoint (urlAppendSegment acc "robots") }
    Authorization := { srv.Authorization with
      AuthorizationEndpoint := defaultString srv.Authorization.AuthorizationEndpoint (issuer ++ "/authorize")
      TokenEndpoint := defaultString srv.Authorization.TokenEndpoint (issuer ++ "/oauth/token")
      RevocationEndpoint := defaultString srv.Authorization.RevocationEndpoint (issuer ++ "/oauth/revoke")
      RegistrationEndpoint := defaultString srv.Authorization.RegistrationEndpoint (urlAppendSegment acc "clients")
      DeviceAuthorizationEndpoint := defaultString srv.Authorization.DeviceAuthorizationEndpoint (issuer ++ "/oauth/device/code")
      JSONWebKeySetURI := defaultString srv.Authorization.JSONWebKeySetURI (wellKnownURI issuer "jwks.json") }
    Application := { srv.Application with
      AuthSuccessEndpoint := defaultString srv.Application.AuthSuccessEndpoint "https://docs.stormforge.io/api/auth_success/" } }

/-- defaultServerEndpoints (defaults.go). -/
def defaultServerEndpoints (srv : Server) : Except String Server := do
  let api ← discoveryIssuerURL srv.Identifier
  let issuer ← discoveryIssuerURL srv.Authorization.Issuer
  .ok (applyEndpointDefaults api issuer srv)

/-- addDefaultObjects (defaults.go): seed every completely empty collection
with a single zero-valued entry, named "default" (servers, authorizations,
contexts) or after the bootstrap cluster name (clusters, controllers). -/
def addDefaultObjects (clusterName : String) (c : Config) : Config :=
  { c with
    Servers := if c.Servers = [] then [⟨"default", emptyServer⟩] else c.Servers
    Authorizations := if c.Authorizations = [] then [⟨"default", emptyAuthorization⟩] else c.Authorizations
    Clusters := if c.Clusters = [] then [⟨clusterName, emptyCluster⟩] else c.Clusters
    Controllers := if c.Controllers = [] then [⟨clusterName, emptyController⟩] else c.Controllers
    Contexts := if c.Contexts = [] then [⟨"default", emptyContext⟩] else c.Contexts }

/-! The implied-name resolvers (defaults.go).  Each Go helper reads the
target collection only through `findX(l, n) != nil`, `len(l)` and
`l[0].Name`, so the embedding passes the collection's name list. -/

/-- defaultServerName (defaults.go). -/
def defaultServerName (serverNames : List String) (s name : String) :
    Except String String :=
  if name ∈ serverNames then .ok (defaultString s name)
  else
    match serverNames with
    | [e] => .ok (defaultString s e)
    | _ =>
        if "default" ∈ serverNames then .ok (defaultString s "default")
        else if s ≠ "" then .ok s
        else .error ("could not imply default server name for context: " ++ name)

/-- defaultAuthorizationName (defaults.go): tries the context name, then
the resolved server name, then the single entry, then "default". -/
def defaultAuthorizationName (authorizationNames : List String)
    (s name server : String) : Except String String :=
  if name ∈ authorizationNames then .ok (defaultString s name)
  else if server ∈ authorizationNames then .ok (defaultString s server)
  else
    match authorizationNames with
    | [e] => .ok (defaultString s e)
    | _ =>
        if "default" ∈ authorizationNames then .ok (defaultString s "default")
        else if s ≠ "" then .ok s
        else .error ("could not imply default authorization name for context: " ++ name)

/-- defaultClusterName (defaults.go): the final fallback looks up the
bootstrap cluster name, not the literal "default". -/
def defaultClusterName (clusterNames : List String)
    (clusterName s name : String) : Except String String :=
  if name ∈ clusterNames then .ok (defaultString s name)
  else
    match clusterNames with
    | [e] => .ok (defaultString s e)
    | _ =>
        if clusterName ∈ clusterNames then .ok (defaultString s clusterName)
        else if s ≠ "" then .ok s
        else .error ("could not imply default cluster name for context: " ++ name)

/-- defaultControllerName (defaults.go): same strategy list as
`defaultClusterName`. -/
def defaultControllerName (controllerNames : List String)
    (clusterName s name : String) : Except String String :=
  if name ∈ controllerNames then .ok (defaultString s name)
  else
    match controllerNames with
    | [e] => .ok (defaultString s e)
    | _ =>
        if clusterName ∈ controllerNames then .ok (defaultString s clusterName)
        else if s ≠ "" then .ok s
        else .error ("could not imply default controller name for cluster: " ++ name)

/-- defaultContextName (defaults.go): resolves the current-context scalar
(single entry, then "default"). -/
def defaultContextName (contextNames : List String) (s : String) :
    Except String String :=
  match contextNames with
  | [e] => .ok (defaultString s e)
  | _ =>
      if "default" ∈ contextNames then .ok (defaultString s "default")
      else if s ≠ "" then .ok s
      else .error "could not imply default current context"

/-- Error-propagating map over a list (the `for i := range l { ... return
err }` loops of defaults.go). -/
def mapE {α β : Type} (f : α → Except String β) :
    List α → Except String (List β)
  | [] => .ok []
  | a :: rest => do
      let b ← f a
      let bs ← mapE f rest
      .ok (b :: bs)

/-- The per-entry body of applyServerDefaults (defaults.go): roots, then
endpoints. -/
def serverEntryStep (env : String) (e : Named Server) : Except String (Named Server) := do
  let s ← defaultServerRoots env e.Body
  let s ← defaultServerEndpoints s
  .ok ⟨e.Name, s⟩

/-- applyServerDefaults (defaults.go) on the server list. -/
def applyServerDefaults (env : String) (servers : List (Named Server)) :
    Except String (List (Named Server)) :=
  mapE (serverEntryStep env) servers

/-- The per-entry body of applyClusterDefaults (defaults.go). -/
def clusterEntryStep (controllerNames : List String) (clusterName : String)
    (e : Named Cluster) : Except String (Named Cluster) := do
  let ctl ← defaultControllerName controllerNames clusterName e.Body.Controller e.Name
  .ok ⟨e.Name, { e.Body with
    Bin := defaultString e.Body.Bin "kubectl"
    Controller := ctl }⟩

/-- applyClusterDefaults (defaults.go) on the cluster list: default the
kubectl binary and resolve the controller reference against the controller
names as they stand before controller defaults run. -/
def applyClusterDefaults (controllerNames : List String) (clusterName : String)
    (clusters : List (Named Cluster)) : Except String (List (Named Cluster)) :=
  mapE (clusterEntryStep controllerNames clusterName) clusters

/-- applyControllerDefaults (defaults.go): fixed literals; the Go function
returns a nil error unconditionally, so the embedding is total. -/
def applyControllerDefaults (controllers : List (Named Controller)) :
    List (Named Controller) :=
  controllers.map (fun e =>
    ⟨e.Name, { e.Body with
      DeploymentName := defaultString e.Body.DeploymentName "optimize-controller-manager"
      Namespace := defaultString e.Body.Namespace "stormforge-system" }⟩)

/-- The per-context part of applyContextDefaults (defaults.go): server,
then authorization (reading the just-resolved server), then cluster. -/
def applyContextDefault1 (serverNames authorizationNames clusterNames : List String)
    (clusterName : String) (e : Named Context) : Except String (Named Context) := do
  let s ← defaultServerName serverNames e.Body.Server e.Name
  let a ← defaultAuthorizationName authorizationNames e.Body.Authorization e.Name s
  let c ← defaultClusterName clusterNames clusterName e.Body.Cluster e.Name
  .ok ⟨e.Name, ⟨s, a, c⟩⟩

/-- defaultLoader (defaults.go): seed missing collections, then apply
server, cluster, controller and context defaults in order, finally
resolving the current-context scalar.  `clusterName` is the result of the
external `bootstrapClusterName` probe. -/
def defaultLoader (clusterName : String) (cfg : Config) : Except String Config := do
  let env := resolvedEnvironment cfg
  let c := addDefaultObjects clusterName cfg
  let servers ← applyServerDefaults env c.Servers
  let c := { c with Servers := servers }
  let clusters ← applyClusterDefaults (c.Controllers.map (·.Name)) clusterName c.Clusters
  let c := { c with Clusters := clusters }
  let c := { c with Controllers := applyControllerDefaults c.Controllers }
  let contexts ← mapE
    (applyContextDefault1 (c.Servers.map (·.Name)) (c.Authorizations.map (·.Name))
      (c.Clusters.map (·.Name)) clusterName) c.Contexts
  let c := { c with Contexts := contexts }
  let cur ← defaultContextName (c.Contexts.map (·.Name)) c.CurrentContext
  .ok { c with CurrentContext := cur }

/-! ## Credential serialization (config.go)

A serialized credential is a flat JSON object whose values are all strings
when the diagnostic `DecodeJWT` mode is off (the only mode the claims
engage; with the mode on, the access token may be replaced by a decoded
claim object, which this flat model does not represent).  The object is
embedded as the ordered list of its key/value pairs. -/

/-- The serialized form of a credential: a flat string-valued JSON object
as an ordered key/value list. -/
def JsonObj : Type := List (String × String)

/-- The two decimal digits of `n` (the `%02d` rendering used inside
RFC 3339 timestamps). -/
def pad2 (n : Nat) : List Char := [Nat.digitChar (n / 10 % 10), Nat.digitChar (n % 10)]

/-- The four decimal digits of `n` (the year field of RFC 3339). -/
def pad4 (n : Nat) : List Char :=
  [Nat.digitChar (n / 1000 % 10), Nat.digitChar (n / 100 % 10),
   Nat.digitChar (n / 10 % 10), Nat.digitChar (n % 10)]

/-- `time.Time.Format(time.RFC3339)` after `.UTC()`: the 20-character
`YYYY-MM-DDTHH:MM:SSZ` form.  The format has no sub-second digits, so
`Nano` is dropped. -/
def formatRFC3339 (t : GoTime) : String :=
  String.mk (pad4 t.Year ++ '-' :: pad2 t.Month ++ '-' :: pad2 t.Day ++
    'T' :: pad2 t.Hour ++ ':' :: pad2 t.Minute ++ ':' :: pad2 t.Second ++ ['Z'])

/-- Numeric value of a decimal digit character. -/
def digitVal (c : Char) : Nat := c.toNat - 48

/-- Parse two decimal digits. -/
def parse2 (c1 c2 : Char) : Option Nat :=
  if c1.isDigit ∧ c2.isDigit then some (digitVal c1 * 10 + digitVal c2) else none

/-- Parse four decimal digits. -/
def parse4 (c1 c2 c3 c4 : Char) : Option Nat :=
  if c1.isDigit ∧ c2.isDigit ∧ c3.isDigit ∧ c4.isDigit then
    some (((digitVal c1 * 10 + digitVal c2) * 10 + digitVal c3) * 10 + digitVal c4)
  else none

/-- The RFC 3339 parse performed when `encoding/json` decodes a
`time.Time`: accepts exactly the 20-character UTC form produced by
`formatRFC3339` (sub-second and offset forms never arise from this
serializer) and rejects everything else — in particular the literal
`"0"` written for never-expiring tokens. -/
def parseRFC3339 (s : String) : Option GoTime :=
  match s.data with
  | [y1, y2, y3, y4, sep1, m1, m2, sep2, d1, d2, sepT,
     h1, h2, sep3, mi1, mi2, sep4, ss1, ss2, sepZ] =>
      if sep1 = '-' ∧ sep2 = '-' ∧ sepT = 'T' ∧ sep3 = ':' ∧ sep4 = ':' ∧ sepZ = 'Z' then
        match parse4 y1 y2 y3 y4, parse2 m1 m2, parse2 d1 d2,
            parse2 h1 h2, parse2 mi1 mi2, parse2 ss1 ss2 with
        | some y, some mo, some d, some h, some mi, some se =>
            some ⟨y, mo, d, h, mi, se, 0⟩
        | _, _, _, _, _, _ => none
      else none
  | _ => none

/-- The expiry string written by `Credential.MarshalJSON`: the literal
`"0"` for the zero time, else the RFC 3339 UTC rendering. -/
def expiryString (t : GoTime) : String :=
  if t.IsZero then "0" else formatRFC3339 t

/-- The object written for a token credential: the embedded struct's
surviving fields (`token_type`, `refresh_token`, both `omitempty`) come
first in declaration order, then the overriding `access_token`
(`omitempty`) and `expiry` (whose string is never empty). -/
def marshalTokenCredential (tc : TokenCredential) : JsonObj :=
  (if tc.TokenType ≠ "" then [("token_type", tc.TokenType)] else []) ++
  (if tc.RefreshToken ≠ "" then [("refresh_token", tc.RefreshToken)] else []) ++
  (if tc.AccessToken ≠ "" then [("access_token", tc.AccessToken)] else []) ++
  [("expiry", expiryString tc.Expiry)]

/-- The object written for a client credential: three plain fields, no
`omitempty`. -/
def marshalClientCredential (cc : ClientCredential) : JsonObj :=
  [("client_id", cc.ClientID), ("client_secret", cc.ClientSecret), ("scope", cc.Scope)]

/-- Credential.MarshalJSON (config.go) with the diagnostic `DecodeJWT`
mode off: a non-nil token credential wins, else a non-nil client
credential, else the empty object `{}`. -/
def marshalCredential (c : Credential) : JsonObj :=
  match c.TokenCredential with
  | some tc => marshalTokenCredential tc
  | none =>
      match c.ClientCredential with
      | some cc => marshalClientCredential cc
      | none => []

/-- The `map[string]string` produced by the first `json.Unmarshal` of
`Credential.UnmarshalJSON`: later duplicate keys overwrite earlier ones. -/
def mapOf (data : JsonObj) : List (String × String) :=
  data.foldl (fun m kv => goInsert m kv.1 kv.2) []

/-- `json.Unmarshal` of the object into a `*TokenCredential`, field by
field in the order the keys appear; a key that fails to decode (only
`expiry` can, via the RFC 3339 parse) aborts, leaving the fields decoded
so far.  Returns the (possibly partial) struct and the error, if any. -/
def decodeTokenFields : JsonObj → TokenCredential → TokenCredential × Option String
  | [], tc => (tc, none)
  | (k, v) :: rest, tc =>
      if k = "access_token" then decodeTokenFields rest { tc with AccessToken := v }
      else if k = "token_type" then decodeTokenFields rest { tc with TokenType := v }
      else if k = "refresh_token" then decodeTokenFields rest { tc with RefreshToken := v }
      else if k = "expiry" then
        match parseRFC3339 v with
        | some t => decodeTokenFields rest { tc with Expiry := t }
        | none => (tc, some ("parsing time " ++ v))
      else decodeTokenFields rest tc

/-- `json.Unmarshal` of the object into a `*ClientCredential`: all three
fields are plain strings, so decoding a string-valued object never
fails. -/
def decodeClientFields : JsonObj → ClientCredential → ClientCredential
  | [], cc => cc
  | (k, v) :: rest, cc =>
      if k = "client_id" then decodeClientFields rest { cc with ClientID := v }
      else if k = "client_secret" then decodeClientFields rest { cc with ClientSecret := v }
      else if k = "scope" then decodeClientFields rest { cc with Scope := v }
      else decodeClientFields rest cc

/-- Credential.UnmarshalJSON (config.go), decoding into a fresh credential:
an empty object is the empty credential; a non-empty `access_token` selects
the token variant and a non-empty `client_id` the client variant, each
discarding any inner decode error (`return nil`); anything else is the
`unknown credential` error. -/
def unmarshalCredential (data : JsonObj) : Except String Credential :=
  let m := mapOf data
  if m = [] then .ok ⟨none, none⟩
  else if (findKey m "access_token").getD "" ≠ "" then
    .ok ⟨some (decodeTokenFields data ⟨"", "", "", GoTime.zero⟩).1, none⟩
  else if (findKey m "client_id").getD "" ≠ "" then
    .ok ⟨none, some (decodeClientFields data ⟨"", "", ""⟩)⟩
  else .error "unknown credential"

/-! ## Statement-level definitions

Predicates and spec-side reference definitions used by the theorems, plus
the concrete configurations used by witnesses and counterexamples. -/

/-- The names of a named collection. -/
def namesOf {β : Type} (l : List (Named β)) : List String := l.map Named.Name

/-- The keys of an association list. -/
def keysOf {β : Type} (l : List (String × β)) : List String := l.map Prod.fst

/-- The name list of a controller env sequence. -/
def envNames (l : List ControllerEnvVar) : List String := l.map ControllerEnvVar.Name

/-- The overlay holds a complete token credential (non-nil pointer with a
non-empty access token). -/
def Credential.tokenComplete (c : Credential) : Bool :=
  match c.TokenCredential with
  | some tc => tc.AccessToken != ""
  | none => false

/-- The overlay holds a complete client credential (non-nil pointer with a
non-empty client id). -/
def Credential.clientComplete (c : Credential) : Bool :=
  match c.ClientCredential with
  | some cc => cc.ClientID != ""
  | none => false

/-- A credential with no dangling incomplete variant pointer alongside a
complete one; re-merging such a credential into itself is stable. -/
def CredStable (c : Credential) : Prop :=
  (c.tokenComplete = true → c.ClientCredential = none) ∧
  (c.clientComplete = true → c.TokenCredential = none)

/-- Every controller entry of the overlay has an env sequence with pairwise
distinct names and non-empty values (the invariant of spec §3 under which
the env merge is idempotent). -/
def EnvMergeSafe (b : Config) : Prop :=
  ∀ e ∈ b.Controllers,
    ((e.Body.Env.map ControllerEnvVar.Name).Nodup ∧ ∀ v ∈ e.Body.Env, v.Value ≠ "")

/-- Every authorization entry of the overlay has a re-merge-stable
credential. -/
def CredSafe (b : Config) : Prop :=
  ∀ a ∈ b.Authorizations, CredStable a.Body.Credential

instance (c : Credential) : Decidable (CredStable c) := by
  unfold CredStable; infer_instance

instance (b : Config) : Decidable (EnvMergeSafe b) := by
  unfold EnvMergeSafe; exact List.decidableBAll _ _

instance (b : Config) : Decidable (CredSafe b) := by
  unfold CredSafe; exact List.decidableBAll _ _

/-- What one collection merge guarantees (the amended claim C2): base
entries keep their positions and names, base entries whose name is absent
from the overlay are unchanged, the appended suffix consists of
overlay-only entries whose content is an overlay entry's body, and every
overlay-only name reaches the suffix. -/
def MergedColl {β : Type} (base ov result : List (Named β)) : Prop :=
  base.length ≤ result.length ∧
  List.Forall₂ (fun a b => b.Name = a.Name ∧ (a.Name ∉ namesOf ov → b = a))
    base (result.take base.length) ∧
  (∀ e ∈ result.drop base.length,
    e.Name ∉ namesOf base ∧ ∃ o ∈ ov, o.Name = e.Name ∧ o.Body = e.Body) ∧
  (∀ n ∈ namesOf ov, n ∉ namesOf base → n ∈ namesOf (result.drop base.length))

/-- The Implied Name strategy list as the spec words it, with the fourth
fallback as a parameter: try the enclosing entity's name, then (for
authorizations) the auxiliary key, then the sole entry, then the fallback
name. -/
def impliedNameTail (names : List String) (fallback : String) : Option String :=
  match names with
  | [e] => some e
  | _ => if fallback ∈ names then some fallback else none

/-- See `impliedNameTail`; the full strategy list over the collection's
name list. -/
def impliedNameFromSpec (names : List String) (entity : String)
    (aux : Option String) (fallback : String) : Option String :=
  if entity ∈ names then some entity
  else
    match aux with
    | some a => if a ∈ names then some a else impliedNameTail names fallback
    | none => impliedNameTail names fallback

/-- Present an optional resolution result as the resolver's return value. -/
def toExcept : Option String → String → Except String String
  | some v, _ => .ok v
  | none, e => .error e

/-- The dotted-path grammar exactly as claim C8 words it: `current-context`,
`cluster.<n>.<f>` with f in {context, bin, controller},
`controller.<n>.env.<var>`, `context.<n>.<f>` with f in
{server, authorization, cluster}. -/
def claimGrammar : List String → Bool
  | ["current-context"] => true
  | ["cluster", _, f] => f == "context" || f == "bin" || f == "controller"
  | ["controller", _, "env", _] => true
  | ["context", _, f] => f == "server" || f == "authorization" || f == "cluster"
  | _ => false

/-- A well-formed civil timestamp (the component ranges `time.Time` can
produce). -/
def WfTime (t : GoTime) : Prop :=
  t.Year ≤ 9999 ∧ t.Month ≤ 12 ∧ t.Day ≤ 31 ∧
  t.Hour ≤ 23 ∧ t.Minute ≤ 59 ∧ t.Second ≤ 59

instance (t : GoTime) : Decidable (WfTime t) := by unfold WfTime; infer_instance

/-! Default resolution never overwrites: the preservation relations of
claim C4.  `presStr a b` says a non-empty `a` survives as `b`; fields the
loader never writes are stated as equalities. -/

/-- A non-empty field value is never overwritten. -/
def presStr (a b : String) : Prop := a ≠ "" → b = a

/-- Field preservation for a server. -/
def PresServer (s t : Server) : Prop :=
  presStr s.Identifier t.Identifier ∧
  presStr s.API.ApplicationsEndpoint t.API.ApplicationsEndpoint ∧
  presStr s.API.ExperimentsEndpoint t.API.ExperimentsEndpoint ∧
  presStr s.API.AccountsEndpoint t.API.AccountsEndpoint ∧
  presStr s.API.PerformanceTokenEndpoint t.API.PerformanceTokenEndpoint ∧
  presStr s.API.RegistryRegistrationEndpoint t.API.RegistryRegistrationEndpoint ∧
  presStr s.Authorization.Issuer t.Authorization.Issuer ∧
  presStr s.Authorization.AuthorizationEndpoint t.Authorization.AuthorizationEndpoint ∧
  presStr s.Authorization.TokenEndpoint t.Authorization.TokenEndpoint ∧
  presStr s.Authorization.RevocationEndpoint t.Authorization.RevocationEndpoint ∧
  presStr s.Authorization.RegistrationEndpoint t.Authorization.RegistrationEndpoint ∧
  presStr s.Authorization.DeviceAuthorizationEndpoint t.Authorization.DeviceAuthorizationEndpoint ∧
  presStr s.Authorization.JSONWebKeySetURI t.Authorization.JSONWebKeySetURI ∧
  presStr s.Application.BaseURL t.Application.BaseURL ∧
  presStr s.Application.AuthSuccessEndpoint t.Application.AuthSuccessEndpoint

/-- Field preservation for a cluster (the loader writes only `Bin` and
`Controller`). -/
def PresCluster (s t : Cluster) : Prop :=
  t.KubeConfig = s.KubeConfig ∧ t.Context = s.Context ∧ t.Namespace = s.Namespace ∧
  presStr s.Bin t.Bin ∧ presStr s.Controller t.Controller

/-- Field preservation for a controller (the loader writes only
`DeploymentName` and `Namespace`). -/
def PresController (s t : Controller) : Prop :=
  presStr s.DeploymentName t.DeploymentName ∧ presStr s.Namespace t.Namespace ∧
  t.RegistrationClientURI = s.RegistrationClientURI ∧
  t.RegistrationAccessToken = s.RegistrationAccessToken ∧
  t.Env = s.Env

/-- Authorizations are never touched by default resolution. -/
def PresAuthorization (s t : Authorization) : Prop := t = s

/-- Field preservation for a context. -/
def PresContext (s t : Context) : Prop :=
  presStr s.Server t.Server ∧ presStr s.Authorization t.Authorization ∧
  presStr s.Cluster t.Cluster

/-- Lift a body preservation relation over a named collection: the original
entries survive as a name-preserving pointwise-preserved front segment (the
loader may append seeded entries behind them). -/
def PresList {β : Type} (P : β → β → Prop) (l m : List (Named β)) : Prop :=
  l.length ≤ m.length ∧
  List.Forall₂ (fun a b => b.Name = a.Name ∧ P a.Body b.Body) l (m.take l.length)

/-- Preservation for a whole configuration under default resolution. -/
def PresConfig (c d : Config) : Prop :=
  PresList PresServer c.Servers d.Servers ∧
  PresList PresAuthorization c.Authorizations d.Authorizations ∧
  PresList PresCluster c.Clusters d.Clusters ∧
  PresList PresController c.Controllers d.Controllers ∧
  PresList PresContext c.Contexts d.Contexts ∧
  presStr c.CurrentContext d.CurrentContext ∧
  d.Environment = c.Environment

/-! Concrete configurations for witnesses and counterexamples. -/

/-- A configuration that only sets the staging environment. -/
def cfgStaging : Config := { emptyConfig with Environment := "staging" }

/-- A configuration with a single context named `foo` and no servers. -/
def cfgFoo : Config := { emptyConfig with Contexts := [⟨"foo", emptyContext⟩] }

/-- A server with every relevant field already populated. -/
def tinyServer : Server :=
  ⟨"x", ⟨"x", "x", "x", "x", "x"⟩, ⟨"x", "x", "x", "x", "x", "x", "x"⟩, ⟨"x", "x"⟩⟩

/-- A fully resolved configuration: default resolution is a no-op on it. -/
def tinyCfg : Config :=
  { Servers := [⟨"d", tinyServer⟩]
    Authorizations := [⟨"d", emptyAuthorization⟩]
    Clusters := [⟨"d", ⟨"", "", "", "kubectl", "d"⟩⟩]
    Controllers := [⟨"d", ⟨"a", "b", "", "", []⟩⟩]
    Contexts := [⟨"d", ⟨"d", "d", "d"⟩⟩]
    CurrentContext := "d"
    Environment := "staging" }

/-- An overlay whose controller carries an empty-valued env variable. -/
def cfgEnvOverlay : Config :=
  { emptyConfig with
    Controllers := [⟨"c", { emptyController with Env := [⟨"A", ""⟩] }⟩] }

/-- An overlay with two servers, to expose the append order. -/
def cfgTwoServers : Config :=
  { emptyConfig with
    Servers := [⟨"a", emptyServer⟩, ⟨"b", tinyServer⟩] }

/-! ## Theorems -/

/-- C5, counterexample: applying `Set execution environment` with the empty
string to a configuration whose stored environment is `"staging"` leaves it
`"staging"`: the environment is not left unset, contradicting the claim's
"applying it with the empty string leaves the environment unset" read over
every starting configuration. -/
theorem setExecutionEnvironment_empty_not_unset :
    SetExecutionEnvironment "" cfgStaging = .ok cfgStaging ∧
      cfgStaging.Environment ≠ "" := by
  constructor <;> decide

/-- C5 (amended): `Set execution environment` normalizes the
case-insensitive aliases (production/prod, staging/stage, development/dev),
fails with the InvalidEnvironment error for any other non-empty string, and
never stores the literal `production` (it is cleared to empty).  Applying
it with the empty string skips the merge: the stored field is unchanged
except that a stored literal `production` is still cleared. -/
theorem setExecutionEnvironment_spec :
    (∀ (cfg : Config) (s : String),
      toLowerStr s = "production" ∨ toLowerStr s = "prod" →
      SetExecutionEnvironment s cfg = .ok { cfg with Environment := "" }) ∧
    (∀ (cfg : Config) (s : String),
      toLowerStr s = "staging" ∨ toLowerStr s = "stage" →
      SetExecutionEnvironment s cfg = .ok { cfg with Environment := "staging" }) ∧
    (∀ (cfg : Config) (s : String),
      toLowerStr s = "development" ∨ toLowerStr s = "dev" →
      SetExecutionEnvironment s cfg = .ok { cfg with Environment := "development" }) ∧
    (∀ (cfg : Config) (s : String), s ≠ "" →
      toLowerStr s ∉
        (["production", "prod", "staging", "stage", "development", "dev"] : List String) →
      SetExecutionEnvironment s cfg = .error ("unknown environment: " ++ s)) ∧
    (∀ (cfg cfg' : Config) (s : String),
      SetExecutionEnvironment s cfg = .ok cfg' → cfg'.Environment ≠ "production") ∧
    (∀ cfg : Config, SetExecutionEnvironment "" cfg =
      .ok { cfg with
        Environment := if cfg.Environment = "production" then "" else cfg.Environment }) := by
  refine ⟨?_, ?_, ?_, ?_, ?_, ?_⟩
  · intro cfg s h
    have hs : s ≠ "" := by
      intro he; rw [he] at h
      rcases h with h | h <;> exact absurd h (by decide)
    unfold SetExecutionEnvironment normalizeEnvironment
    rw [if_pos hs]
    rcases h with h | h <;> rw [h] <;> rfl
  · intro cfg s h
    have hs : s ≠ "" := by
      intro he; rw [he] at h
      rcases h with h | h <;> exact absurd h (by decide)
    unfold SetExecutionEnvironment normalizeEnvironment
    rw [if_pos hs]
    rcases h with h | h <;> rw [h] <;> rfl
  · intro cfg s h
    have hs : s ≠ "" := by
      intro he; rw [he] at h
      rcases h with h | h <;> exact absurd h (by decide)
    unfold SetExecutionEnvironment normalizeEnvironment
    rw [if_pos hs]
    rcases h with h | h <;> rw [h] <;> rfl
  · intro cfg s hs hmem
    simp only [List.mem_cons, List.not_mem_nil, or_false, not_or] at hmem
    obtain ⟨h1, h2, h3, h4, h5, h6⟩ := hmem
    have hn : normalizeEnvironment s = .error ("unknown environment: " ++ s) := by
      unfold normalizeEnvironment
      rw [if_pos hs]
      split
      · exact absurd (by assumption) h1
      · exact absurd (by assumption) h2
      · exact absurd (by assumption) h3
      · exact absurd (by assumption) h4
      · exact absurd (by assumption) h5
      · exact absurd (by assumption) h6
      · rfl
    unfold SetExecutionEnvironment
    rw [hn]
  · intro cfg cfg' s h
    unfold SetExecutionEnvironment at h
    cases hn : normalizeEnvironment s with
    | error e => rw [hn] at h; cases h
    | ok v =>
        rw [hn] at h
        simp only [Except.ok.injEq] at h
        subst h
        by_cases hc : mergeString cfg.Environment v = environmentProduction
        · simp [hc]
        · simp only [if_neg hc]
          simpa [environmentProduction] using hc
  · intro cfg
    rfl

/-- C5 (amended), witness: `"PROD"` applied to the staging configuration
stores the empty string. -/
theorem setExecutionEnvironment_spec_witness :
    SetExecutionEnvironment "PROD" cfgStaging = .ok { cfgStaging with Environment := "" } :=
  setExecutionEnvironment_spec.1 cfgStaging "PROD" (Or.inr (by decide))

/-- C6: merging same-named authorizations replaces the base credential
wholesale: a complete overlay client credential installs the client variant
and clears the token variant (also when a complete token credential is
present, since the client branch runs second); otherwise a complete
overlay token credential installs the token variant and clears the client
variant; an overlay with neither leaves the base entry unchanged. -/
theorem mergeAuthorization_spec :
    ∀ a1 a2 : Authorization,
      (a2.Credential.clientComplete = true →
        mergeAuthorization a1 a2 = ⟨⟨none, a2.Credential.ClientCredential⟩⟩) ∧
      (a2.Credential.clientComplete = false → a2.Credential.tokenComplete = true →
        mergeAuthorization a1 a2 = ⟨⟨a2.Credential.TokenCredential, none⟩⟩) ∧
      (a2.Credential.clientComplete = false → a2.Credential.tokenComplete = false →
        mergeAuthorization a1 a2 = a1) := by
  rintro ⟨⟨t1, c1⟩⟩ ⟨⟨t2, c2⟩⟩
  cases t2 <;> cases c2 <;>
    simp_all [mergeAuthorization, Credential.tokenComplete, Credential.clientComplete]

/-- C6, witness: a complete overlay client credential replaces a stored
token credential. -/
theorem mergeAuthorization_spec_witness :
    mergeAuthorization
        ⟨⟨some ⟨"tok", "", "", GoTime.zero⟩, none⟩⟩
        ⟨⟨none, some ⟨"id", "sec", "sc"⟩⟩⟩ =
      ⟨⟨none, some ⟨"id", "sec", "sc"⟩⟩⟩ :=
  (mergeAuthorization_spec ⟨⟨some ⟨"tok", "", "", GoTime.zero⟩, none⟩⟩
    ⟨⟨none, some ⟨"id", "sec", "sc"⟩⟩⟩).1 (by decide)

/-- C8, counterexample: the dotted path `env` lies outside the claim's
grammar, yet `Set property("env", "staging")` succeeds (it delegates to the
execution-environment change) instead of failing with UnknownProperty. -/
theorem setProperty_env_outside_grammar :
    claimGrammar (splitOnDot "env") = false ∧
      SetProperty "env" "staging" emptyConfig =
        .ok { emptyConfig with Environment := "staging" } := by
  constructor <;> decide

/-- C8 (amended): every dotted path outside the claimed grammar fails with
the UnknownProperty error, except for the exact path `env` (which delegates
to `Set execution environment`), paths whose first segment is
`current-context` (which behave like `current-context` itself), and
`cluster.<n>.<f>` / `context.<n>.<f>` shapes whose named entry does not
exist (which fail with the unknown-cluster/unknown-context error first). -/
theorem setProperty_unknownProperty :
    ∀ (name value : String) (cfg : Config),
      claimGrammar (splitOnDot name) = false →
      name ≠ "env" →
      (splitOnDot name).head? ≠ some "current-context" →
      (∀ n f, splitOnDot name = ["cluster", n, f] →
        (findNamed cfg.Clusters n).isSome = true) →
      (∀ n f, splitOnDot name = ["context", n, f] →
        (findNamed cfg.Contexts n).isSome = true) →
      ∃ m, SetProperty name value cfg = .error ("unknown config property: " ++ m) := by
  intro name value cfg hg henv hcc hclu hctx
  unfold SetProperty
  rw [if_neg henv]
  split
  · next tail heq => exact absurd (by rw [heq]; rfl) hcc
  · next n f heq =>
      have hs := hclu n f heq
      rw [heq] at hg
      simp only [claimGrammar, Bool.or_eq_false_iff, beq_eq_false_iff_ne] at hg
      obtain ⟨⟨g1, g2⟩, g3⟩ := hg
      unfold setClusterProperty
      cases hfc : findNamed cfg.Clusters n with
      | none => rw [hfc] at hs; cases hs
      | some c =>
          split
          · next h2 => cases h2
          · next val h2 =>
              split
              · exact absurd rfl g1
              · exact absurd rfl g2
              · exact absurd rfl g3
              · exact ⟨f, rfl⟩
  · next n v heq => rw [heq] at hg; exact absurd hg (by simp [claimGrammar])
  · next n f heq =>
      have hs := hctx n f heq
      rw [heq] at hg
      simp only [claimGrammar, Bool.or_eq_false_iff, beq_eq_false_iff_ne] at hg
      obtain ⟨⟨g1, g2⟩, g3⟩ := hg
      unfold setContextProperty
      cases hfc : findNamed cfg.Contexts n with
      | none => rw [hfc] at hs; cases hs
      | some c =>
          split
          · next h2 => cases h2
          · next val h2 =>
              split
              · exact absurd rfl g1
              · exact absurd rfl g2
              · exact absurd rfl g3
              · exact ⟨f, rfl⟩
  · exact ⟨name, rfl⟩

/-- C8 (amended), witness: a path made of one unknown segment fails with
UnknownProperty. -/
theorem setProperty_unknownProperty_witness :
    ∃ m, SetProperty "bogus" "v" emptyConfig =
      .error ("unknown config property: " ++ m) :=
  setProperty_unknownProperty "bogus" "v" emptyConfig (by decide) (by decide) (by decide)
    (by
      intro n f h
      have e : splitOnDot "bogus" = ["bogus"] := by decide
      rw [e] at h
      simp at h)
    (by
      intro n f h
      have e : splitOnDot "bogus" = ["bogus"] := by decide
      rw [e] at h
      simp at h)

/-- C9, counterexample: when no context named `foo` exists,
`Set property("context.foo.server", "nosuch")` fails with the
unknown-context error, not the UnknownReference error the claim names for
every configuration. -/
theorem setProperty_missingContext_error :
    SetProperty "context.foo.server" "nosuch" emptyConfig =
        .error ("unknown context: foo") ∧
      ("unknown context: foo" : String) ≠ "unknown server reference: nosuch" := by
  constructor <;> decide

/-- C9 (amended): when the named context exists and the value does not name
an entry of the corresponding collection, `Set property` on
`context.<n>.server|authorization|cluster` fails with the UnknownReference
error (in the embedding an `.error` result carries no configuration: the
Go code returns before mutating, leaving the aggregate unchanged). -/
theorem setProperty_unknownReference :
    ∀ (name value : String) (cfg : Config) (n f : String) (ctx : Context),
      splitOnDot name = ["context", n, f] →
      findNamed cfg.Contexts n = some ctx →
      ((f = "server" ∧ findNamed cfg.Servers value = none) ∨
       (f = "authorization" ∧ findNamed cfg.Authorizations value = none) ∨
       (f = "cluster" ∧ findNamed cfg.Clusters value = none)) →
      SetProperty name value cfg = .error ("unknown " ++ f ++ " reference: " ++ value) := by
  intro name value cfg n f ctx hsp hfc hor
  have henv : name ≠ "env" := by
    intro he; rw [he] at hsp
    have e : splitOnDot "env" = ["env"] := by decide
    rw [e] at hsp
    simp at hsp
  unfold SetProperty
  rw [if_neg henv]
  rw [hsp]
  show setContextProperty cfg n f value = _
  unfold setContextProperty
  rw [hfc]
  rcases hor with ⟨rfl, hnone⟩ | ⟨rfl, hnone⟩ | ⟨rfl, hnone⟩ <;>
    simp [hnone]

/-- C9 (amended), witness: with a context named `foo` present and no server
named `nosuch`, the change fails with the UnknownReference error. -/
theorem setProperty_unknownReference_witness :
    SetProperty "context.foo.server" "nosuch" cfgFoo =
      .error ("unknown " ++ "server" ++ " reference: " ++ "nosuch") :=
  setProperty_unknownReference "context.foo.server" "nosuch" cfgFoo "foo" "server"
    emptyContext (by decide) (by decide) (Or.inl ⟨rfl, by decide⟩)

/-- C10: when the serialized object (as decoded into a string map) holds a
non-empty `access_token`, deserialization always reports success with
whatever prefix of the token shape decoded (the inner error is discarded);
a non-empty `client_id` behaves likewise for the client shape; concretely,
an object with an undecodable `expiry` yields the inner `parsing time`
error, which is swallowed, leaving a partially populated token variant. -/
theorem unmarshalCredential_discards_inner_error :
    (∀ data : JsonObj, (findKey (mapOf data) "access_token").getD "" ≠ "" →
      unmarshalCredential data =
        .ok ⟨some (decodeTokenFields data ⟨"", "", "", GoTime.zero⟩).1, none⟩) ∧
    (∀ data : JsonObj, (findKey (mapOf data) "access_token").getD "" = "" →
      (findKey (mapOf data) "client_id").getD "" ≠ "" →
      unmarshalCredential data = .ok ⟨none, some (decodeClientFields data ⟨"", "", ""⟩)⟩) ∧
    ((decodeTokenFields [("access_token", "x"), ("expiry", "zzz")]
        ⟨"", "", "", GoTime.zero⟩).2 = some "parsing time zzz" ∧
      unmarshalCredential [("access_token", "x"), ("expiry", "zzz")] =
        .ok ⟨some ⟨"x", "", "", GoTime.zero⟩, none⟩) := by
  refine ⟨?_, ?_, by decide, by decide⟩
  · intro data h
    have hm : ¬ mapOf data = [] := by
      intro e; rw [e] at h; exact h rfl
    unfold unmarshalCredential
    rw [if_neg hm, if_pos h]
  · intro data h hc
    have hm : ¬ mapOf data = [] := by
      intro e; rw [e] at hc; exact hc rfl
    unfold unmarshalCredential
    rw [if_neg hm, if_neg (by simpa using h), if_pos hc]

/-- C10, witness: the undecodable-expiry object decodes successfully into a
partial token credential. -/
theorem unmarshalCredential_discards_inner_error_witness :
    unmarshalCredential [("access_token", "x"), ("expiry", "zzz")] =
      .ok ⟨some (decodeTokenFields [("access_token", "x"), ("expiry", "zzz")]
        ⟨"", "", "", GoTime.zero⟩).1, none⟩ :=
  unmarshalCredential_discards_inner_error.1
    [("access_token", "x"), ("expiry", "zzz")] (by decide)

/-- C1, counterexample: with the bootstrap cluster name `kind` and a
cluster collection holding both a `default` entry and a `kind` entry (and
no entry named after the enclosing context `web`), the code resolves the
empty reference to `kind`, while the claim's fourth strategy (the literal
name `default` for every collection) would pick `default`. -/
theorem defaultClusterName_fourth_fallback :
    defaultClusterName ["default", "kind"] "kind" "" "web" = .ok "kind" ∧
      impliedNameFromSpec ["default", "kind"] "web" none "default" = some "default" ∧
      ("kind" : String) ≠ "default" :=
  ⟨by decide, by decide, by decide⟩

/-- C1 (amended): on an empty reference field each resolver implements the
strict strategy order (a) entry named after the enclosing entity, (b)
[authorization only] entry named after the resolved server, (c) sole
entry, (d) fallback lookup — where the fallback name is the literal
`default` for servers and authorizations but the externally-discovered
bootstrap cluster name for clusters and controllers — and fails with the
configuration error naming the enclosing entity when all strategies
miss. -/
theorem impliedName_refines :
    ∀ (names : List String) (name server clusterName : String),
      defaultServerName names "" name =
        toExcept (impliedNameFromSpec names name none "default")
          ("could not imply default server name for context: " ++ name) ∧
      defaultAuthorizationName names "" name server =
        toExcept (impliedNameFromSpec names name (some server) "default")
          ("could not imply default authorization name for context: " ++ name) ∧
      defaultClusterName names clusterName "" name =
        toExcept (impliedNameFromSpec names name none clusterName)
          ("could not imply default cluster name for context: " ++ name) ∧
      defaultControllerName names clusterName "" name =
        toExcept (impliedNameFromSpec names name none clusterName)
          ("could not imply default controller name for cluster: " ++ name) := by
  intro names name server clusterName
  refine ⟨?_, ?_, ?_, ?_⟩
  · by_cases h1 : name ∈ names
    · simp [defaultServerName, impliedNameFromSpec, toExcept, h1, defaultString]
    · rcases names with _ | ⟨a, _ | ⟨b, t⟩⟩
      · simp [defaultServerName, impliedNameFromSpec, impliedNameTail, toExcept, h1]
      · have hna : name ≠ a := by simpa using h1
        simp [defaultServerName, impliedNameFromSpec, impliedNameTail, toExcept, h1, hna,
          defaultString]
      · by_cases h2 : "default" ∈ a :: b :: t
        · simp [defaultServerName, impliedNameFromSpec, impliedNameTail, toExcept, h1, h2,
            defaultString]
        · simp [defaultServerName, impliedNameFromSpec, impliedNameTail, toExcept, h1, h2]
  · by_cases h1 : name ∈ names
    · simp [defaultAuthorizationName, impliedNameFromSpec, toExcept, h1, defaultString]
    · by_cases hs : server ∈ names
      · simp [defaultAuthorizationName, impliedNameFromSpec, toExcept, h1, hs, defaultString]
      · rcases names with _ | ⟨a, _ | ⟨b, t⟩⟩
        · simp [defaultAuthorizationName, impliedNameFromSpec, impliedNameTail, toExcept,
            h1, hs]
        · have hna : name ≠ a := by simpa using h1
          have hsa : server ≠ a := by simpa using hs
          simp [defaultAuthorizationName, impliedNameFromSpec, impliedNameTail, toExcept,
            h1, hs, hna, hsa, defaultString]
        · by_cases h2 : "default" ∈ a :: b :: t
          · simp [defaultAuthorizationName, impliedNameFromSpec, impliedNameTail, toExcept,
              h1, hs, h2, defaultString]
          · simp [defaultAuthorizationName, impliedNameFromSpec, impliedNameTail, toExcept,
              h1, hs, h2]
  · by_cases h1 : name ∈ names
    · simp [defaultClusterName, impliedNameFromSpec, toExcept, h1, defaultString]
    · rcases names with _ | ⟨a, _ | ⟨b, t⟩⟩
      · simp [defaultClusterName, impliedNameFromSpec, impliedNameTail, toExcept, h1]
      · have hna : name ≠ a := by simpa using h1
        simp [defaultClusterName, impliedNameFromSpec, impliedNameTail, toExcept, h1, hna,
          defaultString]
      · by_cases h2 : clusterName ∈ a :: b :: t
        · simp [defaultClusterName, impliedNameFromSpec, impliedNameTail, toExcept, h1, h2,
            defaultString]
        · simp [defaultClusterName, impliedNameFromSpec, impliedNameTail, toExcept, h1, h2]
  · by_cases h1 : name ∈ names
    · simp [defaultControllerName, impliedNameFromSpec, toExcept, h1, defaultString]
    · rcases names with _ | ⟨a, _ | ⟨b, t⟩⟩
      · simp [defaultControllerName, impliedNameFromSpec, impliedNameTail, toExcept, h1]
      · have hna : name ≠ a := by simpa using h1
        simp [defaultControllerName, impliedNameFromSpec, impliedNameTail, toExcept, h1, hna,
          defaultString]
      · by_cases h2 : clusterName ∈ a :: b :: t
        · simp [defaultControllerName, impliedNameFromSpec, impliedNameTail, toExcept, h1,
            h2, defaultString]
        · simp [defaultControllerName, impliedNameFromSpec, impliedNameTail, toExcept, h1,
            h2]

/-! Round-trip lemmas for the RFC 3339 embedding. -/

theorem isDigit_digitChar : ∀ d, d < 10 → (Nat.digitChar d).isDigit = true := by decide

theorem digitVal_digitChar : ∀ d, d < 10 → digitVal (Nat.digitChar d) = d := by decide

theorem parse2_pad2 (n : Nat) (h : n < 100) :
    parse2 (Nat.digitChar (n / 10 % 10)) (Nat.digitChar (n % 10)) = some n := by
  unfold parse2
  rw [if_pos ⟨isDigit_digitChar _ (by omega), isDigit_digitChar _ (by omega)⟩,
    digitVal_digitChar _ (by omega), digitVal_digitChar _ (by omega)]
  congr 1
  omega

theorem parse4_pad4 (n : Nat) (h : n < 10000) :
    parse4 (Nat.digitChar (n / 1000 % 10)) (Nat.digitChar (n / 100 % 10))
      (Nat.digitChar (n / 10 % 10)) (Nat.digitChar (n % 10)) = some n := by
  unfold parse4
  rw [if_pos ⟨isDigit_digitChar _ (by omega), isDigit_digitChar _ (by omega),
    isDigit_digitChar _ (by omega), isDigit_digitChar _ (by omega)⟩,
    digitVal_digitChar _ (by omega), digitVal_digitChar _ (by omega),
    digitVal_digitChar _ (by omega), digitVal_digitChar _ (by omega)]
  congr 1
  omega

/-- Parsing undoes formatting for a well-formed timestamp, losing only the
sub-second component. -/
theorem parseRFC3339_format (t : GoTime) (h : WfTime t) :
    parseRFC3339 (formatRFC3339 t) = some { t with Nano := 0 } := by
  obtain ⟨hY, hMo, hD, hH, hMi, hS⟩ := h
  unfold formatRFC3339 pad4 pad2 parseRFC3339
  simp only [List.cons_append, List.nil_append]
  rw [parse4_pad4 _ (by omega), parse2_pad2 _ (by omega), parse2_pad2 _ (by omega),
    parse2_pad2 _ (by omega), parse2_pad2 _ (by omega), parse2_pad2 _ (by omega)]
  simp

/-- C7, counterexample: a token credential with an empty access token (and
an empty-bodied client credential behaves likewise) serializes to an
object whose deserialization fails with the unknown-credential error, so
the round-trip does not yield the original value for every token-variant
credential. -/
theorem credential_roundtrip_fails_empty_token :
    unmarshalCredential (marshalCredential ⟨some ⟨"", "", "", GoTime.zero⟩, none⟩) =
        .error "unknown credential" ∧
      Except.error "unknown credential" ≠
        Except.ok (⟨some ⟨"", "", "", GoTime.zero⟩, none⟩ : Credential) :=
  ⟨by decide, by decide⟩

/-- C7 (amended): serialization followed by deserialization (diagnostic JWT
mode off, as modelled) yields an equal credential for the entirely empty
credential, for token credentials with a non-empty access token and a
well-formed expiry with zero sub-second component, and for client
credentials with a non-empty client id; the empty credential serializes to
the empty object. -/
theorem credential_roundtrip :
    ∀ c : Credential,
      (c = ⟨none, none⟩ ∨
        (∃ tc, c = ⟨some tc, none⟩ ∧ tc.AccessToken ≠ "" ∧
          WfTime tc.Expiry ∧ tc.Expiry.Nano = 0) ∨
        (∃ cc, c = ⟨none, some cc⟩ ∧ cc.ClientID ≠ "")) →
      marshalCredential ⟨none, none⟩ = ([] : JsonObj) ∧
        unmarshalCredential (marshalCredential c) = .ok c := by
  intro c h
  refine ⟨rfl, ?_⟩
  rcases h with rfl | ⟨tc, rfl, hat, hwf, hnano⟩ | ⟨cc, rfl, hid⟩
  · decide
  · obtain ⟨atok, tt, rt, ex⟩ := tc
    simp only at hat hnano
    have h0 : parseRFC3339 "0" = none := by decide
    by_cases hz : ex = GoTime.zero
    · subst hz
      by_cases htt : tt = "" <;> by_cases hrt : rt = "" <;>
        simp [marshalCredential, marshalTokenCredential, expiryString, GoTime.IsZero,
          htt, hrt, hat, unmarshalCredential, mapOf, goInsert, findKey,
          decodeTokenFields, h0]
    · have hp : parseRFC3339 (formatRFC3339 ex) = some ex := by
        rw [parseRFC3339_format ex hwf]
        obtain ⟨eY, eMo, eD, eH, eMi, eS, eN⟩ := ex
        simp only at hnano
        rw [hnano]
      have hnz : GoTime.IsZero ex = false := by
        simp [GoTime.IsZero, hz]
      by_cases htt : tt = "" <;> by_cases hrt : rt = "" <;>
        simp [marshalCredential, marshalTokenCredential, expiryString, hnz,
          htt, hrt, hat, unmarshalCredential, mapOf, goInsert, findKey,
          decodeTokenFields, hp]
  · obtain ⟨id, sec, sc⟩ := cc
    simp only at hid
    simp [marshalCredential, marshalClientCredential, unmarshalCredential, mapOf,
      goInsert, findKey, decodeClientFields, hid]

/-- C7 (amended), witness: a fully populated token credential with a
whole-second expiry round-trips. -/
theorem credential_roundtrip_witness :
    marshalCredential ⟨none, none⟩ = ([] : JsonObj) ∧
      unmarshalCredential (marshalCredential
          ⟨some ⟨"tok", "bearer", "r", ⟨2023, 5, 9, 13, 4, 5, 0⟩⟩, none⟩) =
        .ok ⟨some ⟨"tok", "bearer", "r", ⟨2023, 5, 9, 13, 4, 5, 0⟩⟩, none⟩ :=
  credential_roundtrip ⟨some ⟨"tok", "bearer", "r", ⟨2023, 5, 9, 13, 4, 5, 0⟩⟩, none⟩
    (Or.inr (Or.inl ⟨⟨"tok", "bearer", "r", ⟨2023, 5, 9, 13, 4, 5, 0⟩⟩, rfl,
      by decide, by decide, rfl⟩))

/-! ## Association-list lemmas for the Go map model -/

theorem keysOf_nil {β : Type} : keysOf ([] : List (String × β)) = [] := rfl

theorem keysOf_cons {β : Type} (a : String) (b : β) (rest : List (String × β)) :
    keysOf ((a, b) :: rest) = a :: keysOf rest := rfl

theorem namesOf_nil {β : Type} : namesOf ([] : List (Named β)) = [] := rfl

theorem namesOf_cons {β : Type} (e : Named β) (rest : List (Named β)) :
    namesOf (e :: rest) = e.Name :: namesOf rest := rfl

theorem keysOf_goInsert {β : Type} (idx : List (String × β)) (k : String) (v : β) :
    keysOf (goInsert idx k v) =
      if k ∈ keysOf idx then keysOf idx else keysOf idx ++ [k] := by
  induction idx with
  | nil => simp [goInsert, keysOf]
  | cons kv rest ih =>
      obtain ⟨a, b⟩ := kv
      by_cases hak : a = k
      · subst hak
        rw [goInsert, if_pos rfl, keysOf_cons, keysOf_cons, if_pos (by simp)]
      · have hka : k ≠ a := fun e => hak e.symm
        rw [goInsert, if_neg hak, keysOf_cons, keysOf_cons, ih]
        by_cases hk : k ∈ keysOf rest
        · rw [if_pos hk, if_pos (by simp [hk])]
        · rw [if_neg hk, if_neg (by simp [hk, hka]), List.cons_append]

theorem mem_keys_goInsert {β : Type} (idx : List (String × β)) (k k' : String) (v : β) :
    k' ∈ keysOf (goInsert idx k v) ↔ k' ∈ keysOf idx ∨ k' = k := by
  rw [keysOf_goInsert]
  split
  · next h =>
      constructor
      · exact Or.inl
      · rintro (h' | rfl)
        · exact h'
        · exact h
  · simp

theorem nodup_keys_goInsert {β : Type} (idx : List (String × β)) (k : String) (v : β)
    (h : (keysOf idx).Nodup) : (keysOf (goInsert idx k v)).Nodup := by
  rw [keysOf_goInsert]
  split
  · exact h
  · next hk => simpa using List.Nodup.append h (by simp) (by simpa using hk)

theorem mem_goInsert {β : Type} (idx : List (String × β)) (k : String) (v : β) :
    ∀ kv ∈ goInsert idx k v, kv ∈ idx ∨ kv = (k, v) := by
  induction idx with
  | nil => simp [goInsert]
  | cons kv' rest ih =>
      obtain ⟨a, b⟩ := kv'
      intro kv hkv
      by_cases hak : a = k
      · subst hak
        rw [goInsert, if_pos rfl] at hkv
        rcases List.mem_cons.mp hkv with rfl | h
        · exact Or.inr rfl
        · exact Or.inl (List.mem_cons_of_mem _ h)
      · rw [goInsert, if_neg hak] at hkv
        rcases List.mem_cons.mp hkv with rfl | h
        · exact Or.inl (List.mem_cons_self _ _)
        · rcases ih kv h with h' | h'
          · exact Or.inl (List.mem_cons_of_mem _ h')
          · exact Or.inr h'

theorem findKey_eq_none {β : Type} (idx : List (String × β)) (k : String) :
    findKey idx k = none ↔ k ∉ keysOf idx := by
  induction idx with
  | nil => simp [findKey, keysOf]
  | cons kv rest ih =>
      obtain ⟨a, b⟩ := kv
      by_cases hak : a = k
      · subst hak
        simp [findKey, keysOf]
      · have hka : k ≠ a := fun e => hak e.symm
        rw [findKey, if_neg hak, keysOf_cons]
        simp [hka, ih]

theorem findKey_mem {β : Type} (idx : List (String × β)) (k : String) (v : β)
    (h : findKey idx k = some v) : (k, v) ∈ idx := by
  induction idx with
  | nil => simp [findKey] at h
  | cons kv rest ih =>
      obtain ⟨a, b⟩ := kv
      by_cases hak : a = k
      · subst hak
        rw [findKey, if_pos rfl] at h
        injection h with h'
        subst h'
        exact List.mem_cons_self _ _
      · rw [findKey, if_neg hak] at h
        exact List.mem_cons_of_mem _ (ih h)

theorem findKey_of_mem_nodup {β : Type} (idx : List (String × β)) (k : String) (v : β)
    (hnd : (keysOf idx).Nodup) (h : (k, v) ∈ idx) : findKey idx k = some v := by
  induction idx with
  | nil => simp at h
  | cons kv rest ih =>
      obtain ⟨a, b⟩ := kv
      rw [keysOf_cons, List.nodup_cons] at hnd
      rcases List.mem_cons.mp h with h' | h'
      · injection h' with h1 h2
        subst h1; subst h2
        rw [findKey, if_pos rfl]
      · have hak : a ≠ k := by
          intro e; subst e
          exact hnd.1 (List.mem_map.mpr ⟨(a, v), h', rfl⟩)
        rw [findKey, if_neg hak]
        exact ih hnd.2 h'

theorem findKey_isSome {β : Type} (idx : List (String × β)) (k : String) :
    (findKey idx k).isSome = true ↔ k ∈ keysOf idx := by
  cases h : findKey idx k with
  | none => simp [(findKey_eq_none _ _).mp h]
  | some v =>
      simp only [Option.isSome_some, true_iff]
      exact List.mem_map.mpr ⟨(k, v), findKey_mem _ _ _ h, rfl⟩

theorem eraseKey_eq_filter {β : Type} (idx : List (String × β)) (k : String)
    (hnd : (keysOf idx).Nodup) :
    eraseKey idx k = idx.filter (fun kv => !(kv.1 == k)) := by
  induction idx with
  | nil => simp [eraseKey]
  | cons kv rest ih =>
      obtain ⟨a, b⟩ := kv
      rw [keysOf_cons, List.nodup_cons] at hnd
      by_cases hak : a = k
      · subst hak
        rw [eraseKey, if_pos rfl, List.filter_cons_of_neg (by simp)]
        have hall : ∀ kv ∈ rest, (!(kv.1 == a)) = true := by
          intro kv hkv
          simp only [Bool.not_eq_true', beq_eq_false_iff_ne]
          intro e
          exact hnd.1 (List.mem_map.mpr ⟨kv, hkv, e⟩)
        rw [List.filter_eq_self.mpr hall]
      · rw [eraseKey, if_neg hak, List.filter_cons_of_pos (by simpa using hak), ih hnd.2]

theorem nodup_keys_eraseKey {β : Type} (idx : List (String × β)) (k : String)
    (hnd : (keysOf idx).Nodup) : (keysOf (eraseKey idx k)).Nodup := by
  rw [eraseKey_eq_filter idx k hnd]
  exact List.Nodup.sublist (List.Sublist.map _ (List.filter_sublist idx)) hnd

theorem findKey_eraseKey {β : Type} (idx : List (String × β)) (k k' : String)
    (hnd : (keysOf idx).Nodup) :
    findKey (eraseKey idx k) k' = if k' = k then none else findKey idx k' := by
  induction idx with
  | nil => simp [eraseKey, findKey]
  | cons kv rest ih =>
      obtain ⟨a, b⟩ := kv
      rw [keysOf_cons, List.nodup_cons] at hnd
      by_cases hak : a = k
      · subst hak
        rw [eraseKey, if_pos rfl]
        by_cases hk : k' = a
        · subst hk
          rw [if_pos rfl, findKey_eq_none]
          exact hnd.1
        · rw [if_neg hk, findKey, if_neg (fun e => hk e.symm)]
      · rw [eraseKey, if_neg hak]
        by_cases hk : k' = a
        · subst hk
          rw [findKey, if_pos rfl, if_neg hak, findKey, if_pos rfl]
        · rw [findKey, if_neg (fun e => hk e.symm), ih hnd.2]
          by_cases hkk : k' = k
          · rw [if_pos hkk, if_pos hkk]
          · rw [if_neg hkk, if_neg hkk, findKey, if_neg (fun e => hk e.symm)]

/-! ## buildIdx lemmas (the overlay index) -/

theorem foldl_goInsert_nodup {β : Type} (ov : List (Named β)) :
    ∀ idx : List (String × β), (keysOf idx).Nodup →
      (keysOf (ov.foldl (fun i e => goInsert i e.Name e.Body) idx)).Nodup := by
  induction ov with
  | nil => intro idx h; simpa using h
  | cons e rest ih =>
      intro idx h
      rw [List.foldl_cons]
      exact ih _ (nodup_keys_goInsert _ _ _ h)

theorem nodup_keys_buildIdx {β : Type} (ov : List (Named β)) :
    (keysOf (buildIdx ov)).Nodup :=
  foldl_goInsert_nodup ov [] (by simp [keysOf])

theorem foldl_goInsert_mem_keys {β : Type} (ov : List (Named β)) :
    ∀ (idx : List (String × β)) (k : String),
      k ∈ keysOf (ov.foldl (fun i e => goInsert i e.Name e.Body) idx) ↔
        k ∈ keysOf idx ∨ k ∈ namesOf ov := by
  induction ov with
  | nil => intro idx k; simp [namesOf]
  | cons e rest ih =>
      intro idx k
      rw [List.foldl_cons, ih, mem_keys_goInsert, namesOf_cons, List.mem_cons]
      constructor
      · rintro ((h | rfl) | h)
        · exact Or.inl h
        · exact Or.inr (Or.inl rfl)
        · exact Or.inr (Or.inr h)
      · rintro (h | rfl | h)
        · exact Or.inl (Or.inl h)
        · exact Or.inl (Or.inr rfl)
        · exact Or.inr h

theorem mem_keys_buildIdx {β : Type} (ov : List (Named β)) (k : String) :
    k ∈ keysOf (buildIdx ov) ↔ k ∈ namesOf ov := by
  rw [buildIdx, foldl_goInsert_mem_keys]
  simp [keysOf]

theorem foldl_goInsert_mem {β : Type} (ov : List (Named β)) :
    ∀ (idx : List (String × β)) (kv : String × β),
      kv ∈ ov.foldl (fun i e => goInsert i e.Name e.Body) idx →
        kv ∈ idx ∨ ∃ e ∈ ov, e.Name = kv.1 ∧ e.Body = kv.2 := by
  induction ov with
  | nil => intro idx kv h; exact Or.inl h
  | cons e rest ih =>
      intro idx kv h
      rw [List.foldl_cons] at h
      rcases ih _ kv h with h' | ⟨o, ho, h1, h2⟩
      · rcases mem_goInsert _ _ _ kv h' with h'' | rfl
        · exact Or.inl h''
        · exact Or.inr ⟨e, List.mem_cons_self _ _, rfl, rfl⟩
      · exact Or.inr ⟨o, List.mem_cons_of_mem _ ho, h1, h2⟩

theorem mem_buildIdx {β : Type} (ov : List (Named β)) (kv : String × β)
    (h : kv ∈ buildIdx ov) : ∃ e ∈ ov, e.Name = kv.1 ∧ e.Body = kv.2 := by
  rcases foldl_goInsert_mem ov [] kv h with h' | h'
  · simp at h'
  · exact h'

/-! ## Merge loop lemmas -/

theorem mergeNamedLoop_fst_names {β : Type} (mB : β → β → β) (l : List (Named β)) :
    ∀ idx, namesOf (mergeNamedLoop mB l idx).1 = namesOf l := by
  induction l with
  | nil => intro idx; rfl
  | cons e rest ih =>
      intro idx
      rw [mergeNamedLoop]
      cases findKey idx e.Name with
      | some b => simp only [namesOf_cons, ih]
      | none => simp only [namesOf_cons, ih]

theorem mergeNamedLoop_fst_length {β : Type} (mB : β → β → β) (l : List (Named β))
    (idx : List (String × β)) :
    (mergeNamedLoop mB l idx).1.length = l.length := by
  have h := mergeNamedLoop_fst_names mB l idx
  have h1 : (namesOf (mergeNamedLoop mB l idx).1).length = (namesOf l).length := by rw [h]
  simpa [namesOf] using h1

theorem mergeNamedLoop_snd {β : Type} (mB : β → β → β) (l : List (Named β)) :
    ∀ idx, (keysOf idx).Nodup →
      (mergeNamedLoop mB l idx).2 =
        idx.filter (fun kv => !((namesOf l).contains kv.1)) := by
  induction l with
  | nil =>
      intro idx hnd
      rw [mergeNamedLoop]
      simp [namesOf]
  | cons e rest ih =>
      intro idx hnd
      rw [mergeNamedLoop]
      cases hf : findKey idx e.Name with
      | some b =>
          simp only
          rw [ih _ (nodup_keys_eraseKey _ _ hnd), eraseKey_eq_filter _ _ hnd,
            List.filter_filter]
          apply List.filter_congr
          intro kv hkv
          rw [namesOf_cons]
          by_cases hk : kv.1 = e.Name
          · simp [hk]
          · have hk' : e.Name ≠ kv.1 := fun e' => hk e'.symm
            simp [hk, hk']
      | none =>
          simp only
          rw [ih _ hnd]
          apply List.filter_congr
          intro kv hkv
          rw [namesOf_cons]
          have hk : kv.1 ≠ e.Name := by
            intro e'
            have := (findKey_eq_none _ _).mp hf
            exact this (e' ▸ List.mem_map.mpr ⟨kv, hkv, rfl⟩)
          have hk' : e.Name ≠ kv.1 := fun e' => hk e'.symm
          simp [hk, hk']

theorem eraseKey_sublist {β : Type} (idx : List (String × β)) (k : String) :
    List.Sublist (eraseKey idx k) idx := by
  induction idx with
  | nil => simp [eraseKey]
  | cons kv rest ih =>
      obtain ⟨a, b⟩ := kv
      rw [eraseKey]
      split
      · exact List.sublist_cons_self _ _
      · exact List.Sublist.cons₂ _ ih

theorem mergeNamedLoop_forall₂ {β : Type} (mB : β → β → β) (l : List (Named β)) :
    ∀ idx, List.Forall₂
      (fun a b => b.Name = a.Name ∧ (a.Name ∉ keysOf idx → b = a))
      l (mergeNamedLoop mB l idx).1 := by
  induction l with
  | nil => intro idx; rw [mergeNamedLoop]; exact List.Forall₂.nil
  | cons e rest ih =>
      intro idx
      rw [mergeNamedLoop]
      cases hf : findKey idx e.Name with
      | some b =>
          refine List.Forall₂.cons ⟨rfl, ?_⟩ ?_
          · intro hmem
            exact absurd ((findKey_isSome _ _).mp (by rw [hf]; rfl)) hmem
          · refine (ih (eraseKey idx e.Name)).imp ?_
            rintro a c ⟨h1, h2⟩
            refine ⟨h1, fun hmem => h2 fun hmem' => hmem ?_⟩
            exact (List.Sublist.map Prod.fst (eraseKey_sublist idx e.Name)).subset hmem'
      | none =>
          exact List.Forall₂.cons ⟨rfl, fun _ => rfl⟩ (ih idx)

/-- The generic correctness of one collection merge, for every admissible
map-iteration order. -/
theorem mergeNamed_spec {β : Type} (σ : EnumFn) (hσ : IsEnum σ) (mB : β → β → β)
    (base ov : List (Named β)) :
    MergedColl base ov (mergeNamed σ mB base ov) := by
  have hnd := nodup_keys_buildIdx ov
  have hlen : (mergeNamedLoop mB base (buildIdx ov)).1.length = base.length :=
    mergeNamedLoop_fst_length mB base (buildIdx ov)
  have hperm : List.Perm (σ (mergeNamedLoop mB base (buildIdx ov)).2)
      (mergeNamedLoop mB base (buildIdx ov)).2 := hσ _ _
  have hsnd := mergeNamedLoop_snd mB base (buildIdx ov) hnd
  refine ⟨?_, ?_, ?_, ?_⟩
  · rw [mergeNamed, List.length_append, hlen]
    exact Nat.le_add_right _ _
  · rw [mergeNamed, List.take_left' hlen]
    refine (mergeNamedLoop_forall₂ mB base (buildIdx ov)).imp ?_
    rintro a b ⟨h1, h2⟩
    refine ⟨h1, fun hmem => h2 fun hmem' => hmem ?_⟩
    exact (mem_keys_buildIdx ov a.Name).mp hmem'
  · rw [mergeNamed, List.drop_left' hlen]
    intro e he
    obtain ⟨kv, hkv, rfl⟩ := List.mem_map.mp he
    have hmem : kv ∈ (mergeNamedLoop mB base (buildIdx ov)).2 := hperm.subset hkv
    rw [hsnd] at hmem
    have hfil := List.of_mem_filter hmem
    have hidx := List.mem_of_mem_filter hmem
    constructor
    · simpa using hfil
    · obtain ⟨o, ho, h1, h2⟩ := mem_buildIdx ov kv hidx
      exact ⟨o, ho, h1, h2⟩
  · intro n hn hnb
    rw [mergeNamed, List.drop_left' hlen]
    have hk : n ∈ keysOf (buildIdx ov) := (mem_keys_buildIdx ov n).mpr hn
    obtain ⟨kv, hkv, rfl⟩ := List.mem_map.mp hk
    have hfil : kv ∈ (mergeNamedLoop mB base (buildIdx ov)).2 := by
      rw [hsnd]
      exact List.mem_filter.mpr ⟨hkv, by simpa using hnb⟩
    have : kv ∈ σ (mergeNamedLoop mB base (buildIdx ov)).2 :=
      (hperm.mem_iff).mpr hfil
    exact List.mem_map.mpr ⟨⟨kv.1, kv.2⟩, List.mem_map.mpr ⟨kv, this, rfl⟩, rfl⟩

/-- C2, counterexample: the appended overlay-only entries follow the Go
map's iteration order, which is unspecified; the reversing enumeration is
an admissible execution and appends the two overlay-only servers in the
opposite of B's original order, so merge(A,B) does not append them in B's
original order. -/
theorem mergeConfig_append_order_unspecified :
    IsEnum revEnum ∧
      (mergeConfig revEnum emptyConfig cfgTwoServers).Servers =
        [⟨"b", tinyServer⟩, ⟨"a", emptyServer⟩] ∧
      (mergeConfig revEnum emptyConfig cfgTwoServers).Servers ≠ cfgTwoServers.Servers :=
  ⟨isEnum_revEnum, by decide, by decide⟩

/-- C2 (amended): for every admissible map enumeration, merge leaves every
base entry in its original position with its name (unchanged entirely when
its name is absent from the overlay), appends only overlay-only entries
after all base entries — each carrying the body of an overlay entry of
that name — and appends at least one entry for every overlay-only name;
the appended order is unspecified. -/
theorem mergeConfig_preserves :
    ∀ (σ : EnumFn), IsEnum σ → ∀ a b : Config,
      MergedColl a.Servers b.Servers (mergeConfig σ a b).Servers ∧
      MergedColl a.Authorizations b.Authorizations (mergeConfig σ a b).Authorizations ∧
      MergedColl a.Clusters b.Clusters (mergeConfig σ a b).Clusters ∧
      MergedColl a.Controllers b.Controllers (mergeConfig σ a b).Controllers ∧
      MergedColl a.Contexts b.Contexts (mergeConfig σ a b).Contexts :=
  fun σ hσ a b =>
    ⟨mergeNamed_spec σ hσ mergeServer a.Servers b.Servers,
     mergeNamed_spec σ hσ mergeAuthorization a.Authorizations b.Authorizations,
     mergeNamed_spec σ hσ mergeCluster a.Clusters b.Clusters,
     mergeNamed_spec σ hσ (mergeController σ) a.Controllers b.Controllers,
     mergeNamed_spec σ hσ mergeContext a.Contexts b.Contexts⟩

/-- C2 (amended), witness: the identity enumeration at two concrete
configurations. -/
theorem mergeConfig_preserves_witness :
    MergedColl emptyConfig.Servers cfgTwoServers.Servers
        (mergeConfig idEnum emptyConfig cfgTwoServers).Servers ∧
      MergedColl emptyConfig.Authorizations cfgTwoServers.Authorizations
        (mergeConfig idEnum emptyConfig cfgTwoServers).Authorizations ∧
      MergedColl emptyConfig.Clusters cfgTwoServers.Clusters
        (mergeConfig idEnum emptyConfig cfgTwoServers).Clusters ∧
      MergedColl emptyConfig.Controllers cfgTwoServers.Controllers
        (mergeConfig idEnum emptyConfig cfgTwoServers).Controllers ∧
      MergedColl emptyConfig.Contexts cfgTwoServers.Contexts
        (mergeConfig idEnum emptyConfig cfgTwoServers).Contexts :=
  mergeConfig_preserves idEnum isEnum_idEnum emptyConfig cfgTwoServers

/-! ## Env-sequence merge lemmas -/

theorem envNames_cons (e : ControllerEnvVar) (rest : List ControllerEnvVar) :
    envNames (e :: rest) = e.Name :: envNames rest := rfl

theorem nodup_keys_buildEnvIdx (env : List ControllerEnvVar) :
    (keysOf (buildEnvIdx env)).Nodup := by
  suffices h : ∀ idx : List (String × String), (keysOf idx).Nodup →
      (keysOf (env.foldl (fun i e => goInsert i e.Name e.Value) idx)).Nodup by
    exact h [] (by simp [keysOf])
  induction env with
  | nil => intro idx h; simpa using h
  | cons e rest ih =>
      intro idx h
      rw [List.foldl_cons]
      exact ih _ (nodup_keys_goInsert _ _ _ h)

theorem mem_keys_buildEnvIdx (env : List ControllerEnvVar) (k : String) :
    k ∈ keysOf (buildEnvIdx env) ↔ k ∈ envNames env := by
  suffices h : ∀ idx : List (String × String),
      (k ∈ keysOf (env.foldl (fun i e => goInsert i e.Name e.Value) idx) ↔
        k ∈ keysOf idx ∨ k ∈ envNames env) by
    rw [buildEnvIdx, h []]
    simp [keysOf]
  induction env with
  | nil => intro idx; simp [envNames]
  | cons e rest ih =>
      intro idx
      rw [List.foldl_cons, ih, mem_keys_goInsert, envNames_cons, List.mem_cons]
      constructor
      · rintro ((h | rfl) | h)
        · exact Or.inl h
        · exact Or.inr (Or.inl rfl)
        · exact Or.inr (Or.inr h)
      · rintro (h | rfl | h)
        · exact Or.inl (Or.inl h)
        · exact Or.inl (Or.inr rfl)
        · exact Or.inr h

theorem mem_buildEnvIdx (env : List ControllerEnvVar) (kv : String × String)
    (h : kv ∈ buildEnvIdx env) : ∃ e ∈ env, e.Name = kv.1 ∧ e.Value = kv.2 := by
  suffices hgen : ∀ idx : List (String × String),
      kv ∈ env.foldl (fun i e => goInsert i e.Name e.Value) idx →
        kv ∈ idx ∨ ∃ e ∈ env, e.Name = kv.1 ∧ e.Value = kv.2 by
    rcases hgen [] h with h' | h'
    · simp at h'
    · exact h'
  clear h
  induction env with
  | nil => intro idx h'; exact Or.inl h'
  | cons e rest ih =>
      intro idx h'
      rw [List.foldl_cons] at h'
      rcases ih _ h' with h'' | ⟨o, ho, h1, h2⟩
      · rcases mem_goInsert _ _ _ kv h'' with h3 | rfl
        · exact Or.inl h3
        · exact Or.inr ⟨e, List.mem_cons_self _ _, rfl, rfl⟩
      · exact Or.inr ⟨o, List.mem_cons_of_mem _ ho, h1, h2⟩

theorem mergeEnvLoop_fst_names (l : List ControllerEnvVar) :
    ∀ idx, envNames (mergeEnvLoop l idx).1 = envNames l := by
  induction l with
  | nil => intro idx; rfl
  | cons e rest ih =>
      intro idx
      rw [mergeEnvLoop]
      by_cases hv : ((findKey idx e.Name).getD "") ≠ ""
      · rw [if_pos hv]
        simp only [envNames_cons, ih]
      · rw [if_neg hv]
        simp only [envNames_cons, ih]

theorem mergeEnvLoop_snd (l : List ControllerEnvVar) :
    ∀ idx, (keysOf idx).Nodup →
      (mergeEnvLoop l idx).2 =
        idx.filter (fun kv => kv.2 == "" || !((envNames l).contains kv.1)) := by
  induction l with
  | nil =>
      intro idx hnd
      rw [mergeEnvLoop]
      refine (List.filter_eq_self.mpr ?_).symm
      intro kv hkv
      simp [envNames]
  | cons e rest ih =>
      intro idx hnd
      rw [mergeEnvLoop]
      by_cases hv : ((findKey idx e.Name).getD "") ≠ ""
      · rw [if_pos hv]
        simp only
        rw [ih _ (nodup_keys_eraseKey _ _ hnd), eraseKey_eq_filter _ _ hnd,
          List.filter_filter]
        apply List.filter_congr
        intro kv hkv
        obtain ⟨k1, v2⟩ := kv
        rw [envNames_cons]
        by_cases hk : k1 = e.Name
        · -- the filtered-out entry: its value is the non-empty looked-up value
          subst hk
          have hfk : findKey idx e.Name = some v2 :=
            findKey_of_mem_nodup _ _ _ hnd hkv
          have hv2 : v2 ≠ "" := by
            rw [hfk] at hv
            simpa using hv
          simp [hv2]
        · have hk' : e.Name ≠ k1 := fun e' => hk e'.symm
          simp [hk, hk']
      · rw [if_neg hv]
        simp only
        rw [ih _ hnd]
        apply List.filter_congr
        intro kv hkv
        obtain ⟨k1, v2⟩ := kv
        rw [envNames_cons]
        by_cases hk : k1 = e.Name
        · -- missing or empty-valued key: both filters keep the entry
          subst hk
          have hfk : findKey idx e.Name = some v2 :=
            findKey_of_mem_nodup _ _ _ hnd hkv
          have hv2 : v2 = "" := by
            rw [hfk] at hv
            simpa using hv
          simp [hv2]
        · have hk' : e.Name ≠ k1 := fun e' => hk e'.symm
          simp [hk, hk']

theorem mergeEnvLoop_replay (l : List ControllerEnvVar) :
    ∀ idx, (keysOf idx).Nodup →
      (∀ k v, findKey idx k = some v → v ≠ "" →
        ∀ e, l.find? (fun x => x.Name == k) = some e → e.Value = v) →
      (mergeEnvLoop l idx).1 = l := by
  induction l with
  | nil => intro idx hnd h; rfl
  | cons e rest ih =>
      intro idx hnd h
      rw [mergeEnvLoop]
      by_cases hv : ((findKey idx e.Name).getD "") ≠ ""
      · rw [if_pos hv]
        cases hf : findKey idx e.Name with
        | none => rw [hf] at hv; simp at hv
        | some v =>
            have hv' : v ≠ "" := by rw [hf] at hv; simpa using hv
            have hev : e.Value = v := by
              refine h e.Name v hf hv' e ?_
              rw [List.find?_cons_of_pos _ (by simp)]
            have htail : (mergeEnvLoop rest (eraseKey idx e.Name)).1 = rest := by
              refine ih _ (nodup_keys_eraseKey _ _ hnd) ?_
              intro k v' hk hv'' e' he'
              rw [findKey_eraseKey _ _ _ hnd] at hk
              by_cases hke : k = e.Name
              · rw [if_pos hke] at hk; cases hk
              · rw [if_neg hke] at hk
                refine h k v' hk hv'' e' ?_
                rw [List.find?_cons_of_neg _ (by simpa using fun e'' => hke e''.symm)]
                exact he'
            simp only [hf, Option.getD_some, htail]
            obtain ⟨en, ev⟩ := e
            simp only at hev
            rw [hev]
      · rw [if_neg hv]
        simp only
        rw [ih _ hnd ?_]
        intro k v' hk hv'' e' he'
        by_cases hke : k = e.Name
        · subst hke
          rw [hk] at hv
          simp at hv
          exact absurd hv hv''
        · refine h k v' hk hv'' e' ?_
          rw [List.find?_cons_of_neg _ (by simpa using fun e'' => hke e''.symm)]
          exact he'

theorem mergeEnvLoop_find (l : List ControllerEnvVar) :
    ∀ idx, (keysOf idx).Nodup →
      ∀ k v, findKey idx k = some v → v ≠ "" →
        ∀ a, l.find? (fun x => x.Name == k) = some a →
          (mergeEnvLoop l idx).1.find? (fun x => x.Name == k) = some ⟨k, v⟩ := by
  induction l with
  | nil => intro idx hnd k v hk hv a ha; simp at ha
  | cons e rest ih =>
      intro idx hnd k v hk hv a ha
      rw [mergeEnvLoop]
      by_cases hke : e.Name = k
      · subst hke
        rw [if_pos (by rw [hk]; simpa using hv)]
        simp only [hk, Option.getD_some]
        rw [List.find?_cons_of_pos _ (by simp)]
      · by_cases hv2 : ((findKey idx e.Name).getD "") ≠ ""
        · rw [if_pos hv2]
          simp only
          rw [List.find?_cons_of_neg _ (by simpa using hke)]
          refine ih _ (nodup_keys_eraseKey _ _ hnd) k v ?_ hv a ?_
          · rw [findKey_eraseKey _ _ _ hnd, if_neg (fun e' => hke e'.symm)]
            exact hk
          · rw [List.find?_cons_of_neg _ (by simpa using hke)] at ha
            exact ha
        · rw [if_neg hv2]
          simp only
          rw [List.find?_cons_of_neg _ (by simpa using hke)]
          refine ih _ hnd k v hk hv a ?_
          rw [List.find?_cons_of_neg _ (by simpa using hke)] at ha
          exact ha

/-! ## Replay lemmas: merging the same overlay a second time -/

theorem mergeNamedLoop_find {β : Type} (mB : β → β → β) (l : List (Named β)) :
    ∀ idx, (keysOf idx).Nodup →
      ∀ k b, findKey idx k = some b →
        ∀ a, l.find? (fun x => x.Name == k) = some a →
          (mergeNamedLoop mB l idx).1.find? (fun x => x.Name == k) =
            some ⟨a.Name, mB a.Body b⟩ := by
  induction l with
  | nil => intro idx hnd k b hk a ha; simp at ha
  | cons e rest ih =>
      intro idx hnd k b hk a ha
      rw [mergeNamedLoop]
      by_cases hke : e.Name = k
      · subst hke
        rw [hk]
        simp only
        rw [List.find?_cons_of_pos _ (by simp)]
        rw [List.find?_cons_of_pos _ (by simp)] at ha
        injection ha with ha'
        subst ha'
        rfl
      · rw [List.find?_cons_of_neg _ (by simpa using hke)] at ha
        cases hf : findKey idx e.Name with
        | some b' =>
            rw [List.find?_cons_of_neg _ (by simpa using hke)]
            refine ih _ (nodup_keys_eraseKey _ _ hnd) k b ?_ a ha
            rw [findKey_eraseKey _ _ _ hnd, if_neg (fun e' => hke e'.symm)]
            exact hk
        | none =>
            rw [List.find?_cons_of_neg _ (by simpa using hke)]
            exact ih _ hnd k b hk a ha

theorem mergeNamedLoop_replay {β : Type} (mB : β → β → β) (l : List (Named β)) :
    ∀ idx, (keysOf idx).Nodup →
      (∀ k b, findKey idx k = some b →
        ∀ a, l.find? (fun x => x.Name == k) = some a → mB a.Body b = a.Body) →
      (mergeNamedLoop mB l idx).1 = l := by
  induction l with
  | nil => intro idx hnd h; rfl
  | cons e rest ih =>
      intro idx hnd h
      rw [mergeNamedLoop]
      cases hf : findKey idx e.Name with
      | some b =>
          have hb : mB e.Body b = e.Body := by
            refine h e.Name b hf e ?_
            rw [List.find?_cons_of_pos _ (by simp)]
          have htail : (mergeNamedLoop mB rest (eraseKey idx e.Name)).1 = rest := by
            refine ih _ (nodup_keys_eraseKey _ _ hnd) ?_
            intro k b' hk a ha
            rw [findKey_eraseKey _ _ _ hnd] at hk
            by_cases hke : k = e.Name
            · rw [if_pos hke] at hk; cases hk
            · rw [if_neg hke] at hk
              refine h k b' hk a ?_
              rw [List.find?_cons_of_neg _ (by simpa using fun e'' => hke e''.symm)]
              exact ha
          simp only [hb, htail]
      | none =>
          have htail : (mergeNamedLoop mB rest idx).1 = rest := by
            refine ih _ hnd ?_
            intro k b' hk a ha
            by_cases hke : k = e.Name
            · subst hke; rw [hk] at hf; cases hf
            · refine h k b' hk a ?_
              rw [List.find?_cons_of_neg _ (by simpa using fun e'' => hke e''.symm)]
              exact ha
          simp only [htail]

/-- Merging the same overlay into an already-merged collection changes
nothing, provided re-merging an overlay body into a previously merged body
(`hK1`) or into itself (`hK2`) is stable. -/
theorem mergeNamed_idem {β : Type} (σ₁ σ₂ : EnumFn) (h₁ : IsEnum σ₁) (h₂ : IsEnum σ₂)
    (mB₁ mB₂ : β → β → β) (base ov : List (Named β))
    (hK1 : ∀ (x : β) (e : Named β), e ∈ ov → mB₂ (mB₁ x e.Body) e.Body = mB₁ x e.Body)
    (hK2 : ∀ e ∈ ov, mB₂ e.Body e.Body = e.Body) :
    mergeNamed σ₂ mB₂ (mergeNamed σ₁ mB₁ base ov) ov = mergeNamed σ₁ mB₁ base ov := by
  have hnd := nodup_keys_buildIdx ov
  have hlen : (mergeNamedLoop mB₁ base (buildIdx ov)).1.length = base.length :=
    mergeNamedLoop_fst_length mB₁ base (buildIdx ov)
  have hperm₁ : List.Perm (σ₁ (mergeNamedLoop mB₁ base (buildIdx ov)).2)
      (mergeNamedLoop mB₁ base (buildIdx ov)).2 := h₁ _ _
  have hsnd₁ := mergeNamedLoop_snd mB₁ base (buildIdx ov) hnd
  have hspec := mergeNamed_spec σ₁ h₁ mB₁ base ov
  -- names of the two segments of the first merge's result
  have hm₁names : namesOf (mergeNamedLoop mB₁ base (buildIdx ov)).1 = namesOf base :=
    mergeNamedLoop_fst_names mB₁ base (buildIdx ov)
  -- the replay hypothesis for the second pass
  have hfix : ∀ k b, findKey (buildIdx ov) k = some b →
      ∀ a, (mergeNamed σ₁ mB₁ base ov).find? (fun x => x.Name == k) = some a →
        mB₂ a.Body b = a.Body := by
    intro k b hk a ha
    obtain ⟨o, ho, hon, hob⟩ := mem_buildIdx ov (k, b) (findKey_mem _ _ _ hk)
    have hob' : o.Body = b := hob
    by_cases hkb : k ∈ namesOf base
    · -- first occurrence sits in the merged-base segment
      have hbase : base.find? (fun x => x.Name == k) ≠ none := by
        intro hnone
        rw [List.find?_eq_none] at hnone
        obtain ⟨a₀, ha₀, rfl⟩ := List.mem_map.mp hkb
        exact hnone a₀ ha₀ (by simp)
      obtain ⟨a₀, ha₀⟩ := Option.ne_none_iff_exists'.mp hbase
      have hfind := mergeNamedLoop_find mB₁ base (buildIdx ov) hnd k b hk a₀ ha₀
      have happ : (mergeNamed σ₁ mB₁ base ov).find? (fun x => x.Name == k) =
          some ⟨a₀.Name, mB₁ a₀.Body b⟩ := by
        rw [mergeNamed, List.find?_append, hfind]; rfl
      rw [happ] at ha
      injection ha with ha'
      subst ha'
      show mB₂ (mB₁ a₀.Body b) b = mB₁ a₀.Body b
      rw [← hob']
      exact hK1 a₀.Body o ho
    · -- first occurrence sits in the appended overlay-only segment
      have hm₁none : (mergeNamedLoop mB₁ base (buildIdx ov)).1.find?
          (fun x => x.Name == k) = none := by
        rw [List.find?_eq_none]
        intro x hx
        simp only [beq_iff_eq]
        intro e
        have hx' : x.Name ∈ namesOf (mergeNamedLoop mB₁ base (buildIdx ov)).1 :=
          List.mem_map.mpr ⟨x, hx, rfl⟩
        rw [hm₁names] at hx'
        exact hkb (e ▸ hx')
      have happ : (mergeNamed σ₁ mB₁ base ov).find? (fun x => x.Name == k) =
          ((σ₁ (mergeNamedLoop mB₁ base (buildIdx ov)).2).map
            (fun kv => (⟨kv.1, kv.2⟩ : Named β))).find? (fun x => x.Name == k) := by
        rw [mergeNamed, List.find?_append, hm₁none]; rfl
      rw [happ] at ha
      have hamem := List.mem_of_find?_eq_some ha
      have haname : a.Name = k := by simpa using List.find?_some ha
      obtain ⟨kv, hkv, rfl⟩ := List.mem_map.mp hamem
      have hkvrem : kv ∈ (mergeNamedLoop mB₁ base (buildIdx ov)).2 := hperm₁.subset hkv
      have hkvidx : kv ∈ buildIdx ov := by
        rw [hsnd₁] at hkvrem
        exact List.mem_of_mem_filter hkvrem
      have : findKey (buildIdx ov) kv.1 = some kv.2 := by
        refine findKey_of_mem_nodup _ _ _ hnd ?_
        simpa using hkvidx
      simp only at haname
      rw [haname] at this
      rw [hk] at this
      injection this with h2'
      show mB₂ kv.2 b = kv.2
      rw [h2', ← (hob'.trans h2')]
      exact hK2 o ho
  -- second pass: the loop replays the first result, the residue is empty
  have hout := mergeNamedLoop_replay mB₂ (mergeNamed σ₁ mB₁ base ov) (buildIdx ov) hnd hfix
  have hrem : (mergeNamedLoop mB₂ (mergeNamed σ₁ mB₁ base ov) (buildIdx ov)).2 = [] := by
    rw [mergeNamedLoop_snd mB₂ _ _ hnd, List.filter_eq_nil_iff]
    intro kv hkv
    have hkey : kv.1 ∈ keysOf (buildIdx ov) := List.mem_map.mpr ⟨kv, hkv, rfl⟩
    have hov : kv.1 ∈ namesOf ov := (mem_keys_buildIdx ov kv.1).mp hkey
    have hmem : kv.1 ∈ namesOf (mergeNamed σ₁ mB₁ base ov) := by
      by_cases hkb : kv.1 ∈ namesOf base
      · have hin : kv.1 ∈ namesOf (mergeNamedLoop mB₁ base (buildIdx ov)).1 := by
          rw [hm₁names]; exact hkb
        rw [mergeNamed, namesOf, List.map_append]
        exact List.mem_append_left _ hin
      · have hdrop := hspec.2.2.2 kv.1 hov hkb
        rw [mergeNamed, List.drop_left' hlen] at hdrop
        rw [mergeNamed, namesOf, List.map_append]
        exact List.mem_append_right _ hdrop
    simp [hmem]
  have hnil : σ₂ ([] : List (String × β)) = [] := List.Perm.eq_nil (h₂ _ [])
  rw [mergeNamed, hout, hrem, hnil]
  simp

/-- With distinct names and non-empty values, merging an env sequence into
itself changes nothing. -/
theorem mergeEnv_self (σ : EnumFn) (hσ : IsEnum σ) (ye : List ControllerEnvVar)
    (hnd : (envNames ye).Nodup) (hvals : ∀ v ∈ ye, v.Value ≠ "") :
    mergeEnv σ ye ye = ye := by
  have hndk := nodup_keys_buildEnvIdx ye
  have hout : (mergeEnvLoop ye (buildEnvIdx ye)).1 = ye := by
    refine mergeEnvLoop_replay ye (buildEnvIdx ye) hndk ?_
    intro k v hk hv e he
    obtain ⟨e', he', hn', hv'⟩ := mem_buildEnvIdx ye (k, v) (findKey_mem _ _ _ hk)
    have hemem := List.mem_of_find?_eq_some he
    have hename : e.Name = k := by simpa using List.find?_some he
    have : e = e' := by
      refine List.inj_on_of_nodup_map hnd hemem he' ?_
      show e.Name = e'.Name
      rw [hename, hn']
    rw [this]
    exact hv'
  have hrem : (mergeEnvLoop ye (buildEnvIdx ye)).2 = [] := by
    rw [mergeEnvLoop_snd ye (buildEnvIdx ye) hndk, List.filter_eq_nil_iff]
    intro kv hkv
    obtain ⟨e', he', hn', hv'⟩ := mem_buildEnvIdx ye kv hkv
    have h1 : kv.2 ≠ "" := hv' ▸ hvals e' he'
    have h2 : kv.1 ∈ envNames ye := hn' ▸ List.mem_map.mpr ⟨e', he', rfl⟩
    simp [h1, h2]
  have hnil : σ ([] : List (String × String)) = [] := List.Perm.eq_nil (hσ _ [])
  rw [mergeEnv, hout, hrem, hnil]
  simp

/-- With distinct names and non-empty values in the overlay env, a second
merge of the same env sequence changes nothing. -/
theorem mergeEnv_idem (σ₁ σ₂ : EnumFn) (h₁ : IsEnum σ₁) (h₂ : IsEnum σ₂)
    (xe ye : List ControllerEnvVar)
    (_hnd : (envNames ye).Nodup) (hvals : ∀ v ∈ ye, v.Value ≠ "") :
    mergeEnv σ₂ (mergeEnv σ₁ xe ye) ye = mergeEnv σ₁ xe ye := by
  have hndk := nodup_keys_buildEnvIdx ye
  have hperm₁ : List.Perm (σ₁ (mergeEnvLoop xe (buildEnvIdx ye)).2)
      (mergeEnvLoop xe (buildEnvIdx ye)).2 := h₁ _ _
  have hsnd₁ := mergeEnvLoop_snd xe (buildEnvIdx ye) hndk
  have hxe₁names : envNames (mergeEnvLoop xe (buildEnvIdx ye)).1 = envNames xe :=
    mergeEnvLoop_fst_names xe (buildEnvIdx ye)
  have hfix : ∀ k v, findKey (buildEnvIdx ye) k = some v → v ≠ "" →
      ∀ e, (mergeEnv σ₁ xe ye).find? (fun x => x.Name == k) = some e → e.Value = v := by
    intro k v hk hv e he
    by_cases hkx : k ∈ envNames xe
    · have hbase : xe.find? (fun x => x.Name == k) ≠ none := by
        intro hnone
        rw [List.find?_eq_none] at hnone
        obtain ⟨a₀, ha₀, rfl⟩ := List.mem_map.mp hkx
        exact hnone a₀ ha₀ (by simp)
      obtain ⟨a₀, ha₀⟩ := Option.ne_none_iff_exists'.mp hbase
      have hfind := mergeEnvLoop_find xe (buildEnvIdx ye) hndk k v hk hv a₀ ha₀
      have happ : (mergeEnv σ₁ xe ye).find? (fun x => x.Name == k) =
          some ⟨k, v⟩ := by
        rw [mergeEnv, List.find?_append, hfind]; rfl
      rw [happ] at he
      injection he with he'
      rw [← he']
    · have hm₁none : (mergeEnvLoop xe (buildEnvIdx ye)).1.find?
          (fun x => x.Name == k) = none := by
        rw [List.find?_eq_none]
        intro x hx
        simp only [beq_iff_eq]
        intro e'
        have hx' : x.Name ∈ envNames (mergeEnvLoop xe (buildEnvIdx ye)).1 :=
          List.mem_map.mpr ⟨x, hx, rfl⟩
        rw [hxe₁names] at hx'
        exact hkx (e' ▸ hx')
      have happ : (mergeEnv σ₁ xe ye).find? (fun x => x.Name == k) =
          ((σ₁ (mergeEnvLoop xe (buildEnvIdx ye)).2).map
            (fun kv => (⟨kv.1, kv.2⟩ : ControllerEnvVar))).find?
              (fun x => x.Name == k) := by
        rw [mergeEnv, List.find?_append, hm₁none]; rfl
      rw [happ] at he
      have hemem := List.mem_of_find?_eq_some he
      have hename : e.Name = k := by simpa using List.find?_some he
      obtain ⟨kv, hkv, rfl⟩ := List.mem_map.mp hemem
      have hkvrem : kv ∈ (mergeEnvLoop xe (buildEnvIdx ye)).2 := hperm₁.subset hkv
      have hkvidx : kv ∈ buildEnvIdx ye := by
        rw [hsnd₁] at hkvrem
        exact List.mem_of_mem_filter hkvrem
      have hfk : findKey (buildEnvIdx ye) kv.1 = some kv.2 := by
        refine findKey_of_mem_nodup _ _ _ hndk ?_
        simpa using hkvidx
      simp only at hename
      rw [hename, hk] at hfk
      injection hfk with hfk'
      exact hfk'.symm
  have hout := mergeEnvLoop_replay (mergeEnv σ₁ xe ye) (buildEnvIdx ye) hndk hfix
  have hrem : (mergeEnvLoop (mergeEnv σ₁ xe ye) (buildEnvIdx ye)).2 = [] := by
    rw [mergeEnvLoop_snd _ _ hndk, List.filter_eq_nil_iff]
    intro kv hkv
    obtain ⟨e', he', hn', hv'⟩ := mem_buildEnvIdx ye kv hkv
    have h1 : kv.2 ≠ "" := hv' ▸ hvals e' he'
    have h2 : kv.1 ∈ envNames (mergeEnv σ₁ xe ye) := by
      by_cases hkx : kv.1 ∈ envNames xe
      · have hin : kv.1 ∈ envNames (mergeEnvLoop xe (buildEnvIdx ye)).1 := by
          rw [hxe₁names]; exact hkx
        rw [mergeEnv, envNames, List.map_append]
        exact List.mem_append_left _ hin
      · have hinrem : kv ∈ (mergeEnvLoop xe (buildEnvIdx ye)).2 := by
          rw [hsnd₁]
          refine List.mem_filter.mpr ⟨hkv, ?_⟩
          simp [hkx]
        have hinσ : kv ∈ σ₁ (mergeEnvLoop xe (buildEnvIdx ye)).2 :=
          hperm₁.mem_iff.mpr hinrem
        rw [mergeEnv, envNames, List.map_append]
        refine List.mem_append_right _ ?_
        exact List.mem_map.mpr ⟨⟨kv.1, kv.2⟩, List.mem_map.mpr ⟨kv, hinσ, rfl⟩, rfl⟩
    simp [h1, h2]
  have hnil : σ₂ ([] : List (String × String)) = [] := List.Perm.eq_nil (h₂ _ [])
  rw [mergeEnv, hout, hrem, hnil]
  simp

/-! ## Per-body re-merge stability -/

theorem mergeString_idem (a b : String) :
    mergeString (mergeString a b) b = mergeString a b := by
  unfold mergeString
  by_cases hb : b = "" <;> simp [hb]

theorem mergeString_self (a : String) : mergeString a a = a := by
  unfold mergeString
  by_cases ha : a = "" <;> simp [ha]

theorem mergeServer_idem (x y : Server) :
    mergeServer (mergeServer x y) y = mergeServer x y := by
  simp [mergeServer, mergeString_idem]

theorem mergeServer_self (y : Server) : mergeServer y y = y := by
  obtain ⟨i, ⟨a1, a2, a3, a4, a5⟩, ⟨b1, b2, b3, b4, b5, b6, b7⟩, ⟨c1, c2⟩⟩ := y
  simp [mergeServer, mergeString_self]

theorem mergeCluster_idem (x y : Cluster) :
    mergeCluster (mergeCluster x y) y = mergeCluster x y := by
  simp [mergeCluster, mergeString_idem]

theorem mergeCluster_self (y : Cluster) : mergeCluster y y = y := by
  obtain ⟨a, b, c, d, e⟩ := y
  simp [mergeCluster, mergeString_self]

theorem mergeContext_idem (x y : Context) :
    mergeContext (mergeContext x y) y = mergeContext x y := by
  simp [mergeContext, mergeString_idem]

theorem mergeContext_self (y : Context) : mergeContext y y = y := by
  obtain ⟨a, b, c⟩ := y
  simp [mergeContext, mergeString_self]

theorem mergeAuthorization_idem (x y : Authorization) :
    mergeAuthorization (mergeAuthorization x y) y = mergeAuthorization x y := by
  rcases y with ⟨⟨t2, c2⟩⟩
  cases t2 with
  | none =>
      cases c2 with
      | none => rfl
      | some cc =>
          by_cases hid : cc.ClientID = "" <;>
            simp [mergeAuthorization, hid]
  | some tc =>
      cases c2 with
      | none =>
          by_cases hat : tc.AccessToken = "" <;>
            simp [mergeAuthorization, hat]
      | some cc =>
          by_cases hat : tc.AccessToken = "" <;>
            by_cases hid : cc.ClientID = "" <;>
              simp [mergeAuthorization, hat, hid]

theorem mergeAuthorization_self (y : Authorization)
    (h : CredStable y.Credential) : mergeAuthorization y y = y := by
  obtain ⟨h1, h2⟩ := h
  rcases y with ⟨⟨t2, c2⟩⟩
  simp only [Credential.tokenComplete, Credential.clientComplete] at h1 h2
  cases t2 with
  | none =>
      cases c2 with
      | none => rfl
      | some cc =>
          by_cases hid : cc.ClientID = "" <;>
            simp_all [mergeAuthorization, hid]
  | some tc =>
      cases c2 with
      | none =>
          by_cases hat : tc.AccessToken = "" <;>
            simp_all [mergeAuthorization, hat]
      | some cc =>
          by_cases hat : tc.AccessToken = "" <;>
            by_cases hid : cc.ClientID = "" <;>
              simp_all [mergeAuthorization, hat, hid]

theorem mergeController_idem (σ₁ σ₂ : EnumFn) (h₁ : IsEnum σ₁) (h₂ : IsEnum σ₂)
    (x y : Controller) (hnd : (envNames y.Env).Nodup)
    (hvals : ∀ v ∈ y.Env, v.Value ≠ "") :
    mergeController σ₂ (mergeController σ₁ x y) y = mergeController σ₁ x y := by
  simp [mergeController, mergeString_idem, mergeEnv_idem σ₁ σ₂ h₁ h₂ x.Env y.Env hnd hvals]

theorem mergeController_self (σ : EnumFn) (hσ : IsEnum σ) (y : Controller)
    (hnd : (envNames y.Env).Nodup) (hvals : ∀ v ∈ y.Env, v.Value ≠ "") :
    mergeController σ y y = y := by
  obtain ⟨a, b, c, d, env⟩ := y
  simp only [envNames] at hnd
  simp [mergeController, mergeString_self, mergeEnv_self σ hσ env hnd hvals]

/-- C3, counterexample: an overlay controller carrying an empty-valued env
variable is re-appended by every further merge (the env loop neither
consumes nor matches empty values), so merging the same overlay twice
differs from merging it once. -/
theorem mergeConfig_not_idempotent :
    mergeConfig idEnum (mergeConfig idEnum emptyConfig cfgEnvOverlay) cfgEnvOverlay ≠
      mergeConfig idEnum emptyConfig cfgEnvOverlay := by
  decide

/-- C3 (amended): merging the same overlay twice equals merging it once —
for every pair of admissible map enumerations — provided every controller
entry of the overlay carries an env sequence with pairwise-distinct names
and non-empty values, and every authorization entry of the overlay carries
a credential with no incomplete variant alongside a complete one.  Without
these provisos idempotence fails (empty env values are re-appended on each
merge; a dangling incomplete credential variant is cleared by the second
merge). -/
theorem mergeConfig_idem :
    ∀ σ₁ σ₂ : EnumFn, IsEnum σ₁ → IsEnum σ₂ → ∀ a b : Config,
      EnvMergeSafe b → CredSafe b →
      mergeConfig σ₂ (mergeConfig σ₁ a b) b = mergeConfig σ₁ a b := by
  intro σ₁ σ₂ h₁ h₂ a b hEnv hCred
  unfold mergeConfig
  simp only [Config.mk.injEq]
  refine ⟨?_, ?_, ?_, ?_, ?_, ?_, ?_⟩
  · exact mergeNamed_idem σ₁ σ₂ h₁ h₂ mergeServer mergeServer a.Servers b.Servers
      (fun x e _ => mergeServer_idem x e.Body) (fun e _ => mergeServer_self e.Body)
  · exact mergeNamed_idem σ₁ σ₂ h₁ h₂ mergeAuthorization mergeAuthorization
      a.Authorizations b.Authorizations
      (fun x e _ => mergeAuthorization_idem x e.Body)
      (fun e he => mergeAuthorization_self e.Body (hCred e he))
  · exact mergeNamed_idem σ₁ σ₂ h₁ h₂ mergeCluster mergeCluster a.Clusters b.Clusters
      (fun x e _ => mergeCluster_idem x e.Body) (fun e _ => mergeCluster_self e.Body)
  · exact mergeNamed_idem σ₁ σ₂ h₁ h₂ (mergeController σ₁) (mergeController σ₂)
      a.Controllers b.Controllers
      (fun x e he => mergeController_idem σ₁ σ₂ h₁ h₂ x e.Body (hEnv e he).1 (hEnv e he).2)
      (fun e he => mergeController_self σ₂ h₂ e.Body (hEnv e he).1 (hEnv e he).2)
  · exact mergeNamed_idem σ₁ σ₂ h₁ h₂ mergeContext mergeContext a.Contexts b.Contexts
      (fun x e _ => mergeContext_idem x e.Body) (fun e _ => mergeContext_self e.Body)
  · exact mergeString_idem a.CurrentContext b.CurrentContext
  · exact mergeString_idem a.Environment b.Environment

/-- C3 (amended), witness: re-merging a two-server overlay (no controllers,
no credentials) into a populated configuration is a no-op. -/
theorem mergeConfig_idem_witness :
    mergeConfig idEnum (mergeConfig idEnum tinyCfg cfgTwoServers) cfgTwoServers =
      mergeConfig idEnum tinyCfg cfgTwoServers :=
  mergeConfig_idem idEnum idEnum isEnum_idEnum isEnum_idEnum tinyCfg cfgTwoServers
    (by decide) (by decide)

/-! ## C4: defaults are idempotent and never overwrite (defaults.go) -/

theorem presStr_refl (a : String) : presStr a a := fun _ => rfl

theorem presStr_of_eq {a b : String} (h : b = a) : presStr a b := fun _ => h

theorem presStr_trans {a b c : String} (h1 : presStr a b) (h2 : presStr b c) :
    presStr a c := by
  intro ha
  have hb := h1 ha
  rw [h2 (by rw [hb]; exact ha), hb]

theorem defaultString_idem (s v : String) :
    defaultString (defaultString s v) v = defaultString s v := by
  unfold defaultString
  by_cases h : s = ""
  · subst h
    by_cases hv : v = "" <;> simp [hv]
  · simp [h]

theorem presStr_defaultString (s v : String) : presStr s (defaultString s v) :=
  fun h => if_neg h

theorem exbind_ok {α β : Type} (v : α) (f : α → Except String β) :
    (Except.ok v >>= f) = f v := rfl

theorem exbind_error {α β : Type} (e : String) (f : α → Except String β) :
    ((Except.error e : Except String α) >>= f) = Except.error e := rfl

theorem map_name_eta {β : Type} (l : List (Named β)) :
    l.map (fun x => x.Name) = namesOf l := rfl

theorem defaultServerRoots_cases (env : String) (s s' : Server)
    (h : defaultServerRoots env s = .ok s') :
    ∃ c1 c2 c3, s' = rootsApply c1 c2 c3 s ∧
      ∀ t, defaultServerRoots env t = .ok (rootsApply c1 c2 c3 t) := by
  unfold defaultServerRoots at h ⊢
  by_cases h1 : env = environmentProduction
  · rw [if_pos h1] at h
    exact ⟨_, _, _, (Except.ok.inj h).symm, fun t => by rw [if_pos h1]; rfl⟩
  · rw [if_neg h1] at h
    by_cases h2 : env = environmentStaging
    · rw [if_pos h2] at h
      exact ⟨_, _, _, (Except.ok.inj h).symm, fun t => by rw [if_neg h1, if_pos h2]; rfl⟩
    · rw [if_neg h2] at h
      by_cases h3 : env = environmentDevelopment
      · rw [if_pos h3] at h
        exact ⟨_, _, _, (Except.ok.inj h).symm,
          fun t => by rw [if_neg h1, if_neg h2, if_pos h3]; rfl⟩
      · rw [if_neg h3] at h
        exact Except.noConfusion h

theorem rootsApply_fix (c1 c2 c3 : String) (s t : Server)
    (h1 : t.Identifier = (rootsApply c1 c2 c3 s).Identifier)
    (h2 : t.Authorization.Issuer = (rootsApply c1 c2 c3 s).Authorization.Issuer)
    (h3 : t.Application.BaseURL = (rootsApply c1 c2 c3 s).Application.BaseURL) :
    rootsApply c1 c2 c3 t = t := by
  obtain ⟨i, papi, pauth, papp⟩ := t
  obtain ⟨a1, a2, a3, a4, a5, a6, a7⟩ := pauth
  obtain ⟨b1, b2⟩ := papp
  simp only [rootsApply] at h1 h2 h3
  subst h1 h2 h3
  simp [rootsApply, defaultString_idem]

theorem applyEndpointDefaults_roots (api issuer : String) (s : Server) :
    (applyEndpointDefaults api issuer s).Identifier = s.Identifier ∧
    (applyEndpointDefaults api issuer s).Authorization.Issuer = s.Authorization.Issuer ∧
    (applyEndpointDefaults api issuer s).Application.BaseURL = s.Application.BaseURL :=
  ⟨rfl, rfl, rfl⟩

theorem applyEndpointDefaults_idem (api issuer : String) (s : Server) :
    applyEndpointDefaults api issuer (applyEndpointDefaults api issuer s) =
      applyEndpointDefaults api issuer s := by
  obtain ⟨i, papi, pauth, papp⟩ := s
  obtain ⟨q1, q2, q3, q4, q5⟩ := papi
  obtain ⟨a1, a2, a3, a4, a5, a6, a7⟩ := pauth
  obtain ⟨b1, b2⟩ := papp
  simp [applyEndpointDefaults, defaultString_idem]

theorem defaultServerEndpoints_ok (s t : Server)
    (h : defaultServerEndpoints s = .ok t) :
    ∃ api issuer, discoveryIssuerURL s.Identifier = .ok api ∧
      discoveryIssuerURL s.Authorization.Issuer = .ok issuer ∧
      t = applyEndpointDefaults api issuer s := by
  unfold defaultServerEndpoints at h
  cases hapi : discoveryIssuerURL s.Identifier with
  | error e => rw [hapi, exbind_error] at h; exact Except.noConfusion h
  | ok api =>
    rw [hapi, exbind_ok] at h
    cases hiss : discoveryIssuerURL s.Authorization.Issuer with
    | error e => rw [hiss, exbind_error] at h; exact Except.noConfusion h
    | ok issuer =>
      rw [hiss, exbind_ok] at h
      exact ⟨api, issuer, rfl, rfl, (Except.ok.inj h).symm⟩

theorem serverEntryStep_ok (env : String) (e e' : Named Server)
    (h : serverEntryStep env e = .ok e') :
    e'.Name = e.Name ∧ serverEntryStep env e' = .ok e' ∧ PresServer e.Body e'.Body := by
  unfold serverEntryStep at h
  cases hr : defaultServerRoots env e.Body with
  | error err => rw [hr, exbind_error] at h; exact Except.noConfusion h
  | ok s1 =>
    rw [hr, exbind_ok] at h
    cases he : defaultServerEndpoints s1 with
    | error err => rw [he, exbind_error] at h; exact Except.noConfusion h
    | ok t =>
      rw [he, exbind_ok] at h
      have he' : e' = ⟨e.Name, t⟩ := (Except.ok.inj h).symm
      obtain ⟨c1, c2, c3, hs1, hall⟩ := defaultServerRoots_cases env e.Body s1 hr
      obtain ⟨api, issuer, hapi, hiss, ht⟩ := defaultServerEndpoints_ok s1 t he
      subst he'
      have hfix : rootsApply c1 c2 c3 t = t := by
        apply rootsApply_fix c1 c2 c3 e.Body
        · rw [ht, (applyEndpointDefaults_roots api issuer s1).1, hs1]
        · rw [ht, (applyEndpointDefaults_roots api issuer s1).2.1, hs1]
        · rw [ht, (applyEndpointDefaults_roots api issuer s1).2.2, hs1]
      have hroots_t : defaultServerRoots env t = .ok t := by rw [hall t, hfix]
      have hend_t : defaultServerEndpoints t = .ok t := by
        unfold defaultServerEndpoints
        have h1 : t.Identifier = s1.Identifier := by
          rw [ht]; exact (applyEndpointDefaults_roots api issuer s1).1
        have h2 : t.Authorization.Issuer = s1.Authorization.Issuer := by
          rw [ht]; exact (applyEndpointDefaults_roots api issuer s1).2.1
        rw [h1, hapi, exbind_ok, h2, hiss, exbind_ok, ht, applyEndpointDefaults_idem]
      refine ⟨rfl, ?_, ?_⟩
      · simp only [serverEntryStep, hroots_t, hend_t, exbind_ok]
      · subst ht hs1
        obtain ⟨n, b⟩ := e
        obtain ⟨i, ⟨q1, q2, q3, q4, q5⟩, ⟨a1, a2, a3, a4, a5, a6, a7⟩, ⟨b1, b2⟩⟩ := b
        exact ⟨presStr_defaultString _ _, presStr_defaultString _ _,
          presStr_defaultString _ _, presStr_defaultString _ _,
          presStr_defaultString _ _, presStr_defaultString _ _,
          presStr_defaultString _ _, presStr_defaultString _ _,
          presStr_defaultString _ _, presStr_defaultString _ _,
          presStr_defaultString _ _, presStr_defaultString _ _,
          presStr_defaultString _ _, presStr_defaultString _ _,
          presStr_defaultString _ _⟩

theorem mapE_ok_forall₂ {α β : Type} (f : α → Except String β) (l : List α)
    (l' : List β) (h : mapE f l = .ok l') :
    List.Forall₂ (fun a b => f a = .ok b) l l' := by
  induction l generalizing l' with
  | nil =>
    unfold mapE at h
    rw [← Except.ok.inj h]
    exact List.Forall₂.nil
  | cons a rest ih =>
    unfold mapE at h
    cases hfa : f a with
    | error e => rw [hfa, exbind_error] at h; exact Except.noConfusion h
    | ok b =>
      rw [hfa, exbind_ok] at h
      cases hrest : mapE f rest with
      | error e => rw [hrest, exbind_error] at h; exact Except.noConfusion h
      | ok bs =>
        rw [hrest, exbind_ok] at h
        rw [← Except.ok.inj h]
        exact List.Forall₂.cons hfa (ih bs hrest)

theorem mapE_ok_of_forall₂ {α β : Type} (f : α → Except String β) (l : List α)
    (l' : List β) (h : List.Forall₂ (fun a b => f a = .ok b) l l') :
    mapE f l = .ok l' := by
  induction h with
  | nil => rfl
  | cons hfa _ ih =>
    unfold mapE
    rw [hfa, exbind_ok, ih, exbind_ok]

theorem mapE_idem {α : Type} (f : α → Except String α)
    (hf : ∀ a b, f a = .ok b → f b = .ok b) (l l' : List α)
    (h : mapE f l = .ok l') : mapE f l' = .ok l' := by
  apply mapE_ok_of_forall₂
  have h2 := mapE_ok_forall₂ f l l' h
  clear h
  induction h2 with
  | nil => exact List.Forall₂.nil
  | cons hab _ ih => exact List.Forall₂.cons (hf _ _ hab) ih

theorem mapE_length {α β : Type} (f : α → Except String β) (l : List α)
    (l' : List β) (h : mapE f l = .ok l') : l'.length = l.length :=
  (mapE_ok_forall₂ f l l' h).length_eq.symm

theorem mapE_names {β : Type} (f : Named β → Except String (Named β))
    (hf : ∀ a b, f a = .ok b → b.Name = a.Name) (l l' : List (Named β))
    (h : mapE f l = .ok l') : namesOf l' = namesOf l := by
  have h2 := mapE_ok_forall₂ f l l' h
  clear h
  induction h2 with
  | nil => rfl
  | cons hab _ ih =>
    simp only [namesOf, List.map_cons] at ih ⊢
    rw [hf _ _ hab, ih]

theorem mapE_presList {β : Type} (P : β → β → Prop)
    (f : Named β → Except String (Named β))
    (hf : ∀ a b, f a = .ok b → b.Name = a.Name ∧ P a.Body b.Body)
    (l l' : List (Named β)) (h : mapE f l = .ok l') : PresList P l l' := by
  have h2 := mapE_ok_forall₂ f l l' h
  have hlen : l.length = l'.length := h2.length_eq
  refine ⟨hlen.le, ?_⟩
  rw [hlen, List.take_length]
  clear h hlen
  induction h2 with
  | nil => exact List.Forall₂.nil
  | cons hab _ ih => exact List.Forall₂.cons (hf _ _ hab) ih

theorem defaultServerName_ok (ns : List String) (s name t : String)
    (h : defaultServerName ns s name = .ok t) :
    defaultServerName ns t name = .ok t ∧ presStr s t := by
  unfold defaultServerName at h ⊢
  by_cases h1 : name ∈ ns
  · rw [if_pos h1] at h ⊢
    have ht : t = defaultString s name := (Except.ok.inj h).symm
    subst ht
    exact ⟨by rw [defaultString_idem], presStr_defaultString s name⟩
  · rw [if_neg h1] at h ⊢
    rcases ns with _ | ⟨a, _ | ⟨b, rest⟩⟩
    · have h' : (if s ≠ "" then (Except.ok s : Except String String)
          else .error ("could not imply default server name for context: " ++ name)) =
            .ok t := h
      by_cases hs : s = ""
      · rw [if_neg (not_not_intro hs)] at h'
        exact Except.noConfusion h'
      · rw [if_pos hs] at h'
        have ht : t = s := (Except.ok.inj h').symm
        subst ht
        refine ⟨?_, fun _ => rfl⟩
        show (if t ≠ "" then (Except.ok t : Except String String)
            else .error ("could not imply default server name for context: " ++ name)) =
          .ok t
        rw [if_pos hs]
    · have ht : t = defaultString s a := (Except.ok.inj h).symm
      subst ht
      exact ⟨congrArg Except.ok (defaultString_idem s a), presStr_defaultString s a⟩
    · have h' : (if ("default" : String) ∈ a :: b :: rest then
            (Except.ok (defaultString s "default") : Except String String)
          else if s ≠ "" then .ok s
          else .error ("could not imply default server name for context: " ++ name)) =
            .ok t := h
      by_cases h2 : ("default" : String) ∈ a :: b :: rest
      · rw [if_pos h2] at h'
        have ht : t = defaultString s "default" := (Except.ok.inj h').symm
        subst ht
        refine ⟨?_, presStr_defaultString s "default"⟩
        show (if ("default" : String) ∈ a :: b :: rest then
              (Except.ok (defaultString (defaultString s "default") "default") :
                Except String String)
            else if defaultString s "default" ≠ "" then .ok (defaultString s "default")
            else .error ("could not imply default server name for context: " ++ name)) =
          .ok (defaultString s "default")
        rw [if_pos h2, defaultString_idem]
      · rw [if_neg h2] at h'
        by_cases hs : s = ""
        · rw [if_neg (not_not_intro hs)] at h'
          exact Except.noConfusion h'
        · rw [if_pos hs] at h'
          have ht : t = s := (Except.ok.inj h').symm
          subst ht
          refine ⟨?_, fun _ => rfl⟩
          show (if ("default" : String) ∈ a :: b :: rest then
                (Except.ok (defaultString t "default") : Except String String)
              else if t ≠ "" then .ok t
              else .error ("could not imply default server name for context: " ++ name)) =
            .ok t
          rw [if_neg h2, if_pos hs]

theorem defaultAuthorizationName_ok (ns : List String) (s name server t : String)
    (h : defaultAuthorizationName ns s name server = .ok t) :
    defaultAuthorizationName ns t name server = .ok t ∧ presStr s t := by
  unfold defaultAuthorizationName at h ⊢
  by_cases h1 : name ∈ ns
  · rw [if_pos h1] at h ⊢
    have ht : t = defaultString s name := (Except.ok.inj h).symm
    subst ht
    exact ⟨by rw [defaultString_idem], presStr_defaultString s name⟩
  · rw [if_neg h1] at h ⊢
    by_cases h1b : server ∈ ns
    · rw [if_pos h1b] at h ⊢
      have ht : t = defaultString s server := (Except.ok.inj h).symm
      subst ht
      exact ⟨by rw [defaultString_idem], presStr_defaultString s server⟩
    · rw [if_neg h1b] at h ⊢
      rcases ns with _ | ⟨a, _ | ⟨b, rest⟩⟩
      · have h' : (if s ≠ "" then (Except.ok s : Except String String)
            else .error ("could not imply default authorization name for context: " ++ name)) =
              .ok t := h
        by_cases hs : s = ""
        · rw [if_neg (not_not_intro hs)] at h'
          exact Except.noConfusion h'
        · rw [if_pos hs] at h'
          have ht : t = s := (Except.ok.inj h').symm
          subst ht
          refine ⟨?_, fun _ => rfl⟩
          show (if t ≠ "" then (Except.ok t : Except String String)
              else .error ("could not imply default authorization name for context: " ++ name)) =
            .ok t
          rw [if_pos hs]
      · have ht : t = defaultString s a := (Except.ok.inj h).symm
        subst ht
        exact ⟨congrArg Except.ok (defaultString_idem s a), presStr_defaultString s a⟩
      · have h' : (if ("default" : String) ∈ a :: b :: rest then
              (Except.ok (defaultString s "default") : Except String String)
            else if s ≠ "" then .ok s
            else .error ("could not imply default authorization name for context: " ++ name)) =
              .ok t := h
        by_cases h2 : ("default" : String) ∈ a :: b :: rest
        · rw [if_pos h2] at h'
          have ht : t = defaultString s "default" := (Except.ok.inj h').symm
          subst ht
          refine ⟨?_, presStr_defaultString s "default"⟩
          show (if ("default" : String) ∈ a :: b :: rest then
                (Except.ok (defaultString (defaultString s "default") "default") :
                  Except String String)
              else if defaultString s "default" ≠ "" then .ok (defaultString s "default")
              else .error ("could not imply default authorization name for context: " ++ name)) =
            .ok (defaultString s "default")
          rw [if_pos h2, defaultString_idem]
        · rw [if_neg h2] at h'
          by_cases hs : s = ""
          · rw [if_neg (not_not_intro hs)] at h'
            exact Except.noConfusion h'
          · rw [if_pos hs] at h'
            have ht : t = s := (Except.ok.inj h').symm
            subst ht
            refine ⟨?_, fun _ => rfl⟩
            show (if ("default" : String) ∈ a :: b :: rest then
                  (Except.ok (defaultString t "default") : Except String String)
                else if t ≠ "" then .ok t
                else .error ("could not imply default authorization name for context: " ++ name)) =
              .ok t
            rw [if_neg h2, if_pos hs]

theorem defaultClusterName_ok (ns : List String) (cn s name t : String)
    (h : defaultClusterName ns cn s name = .ok t) :
    defaultClusterName ns cn t name = .ok t ∧ presStr s t := by
  unfold defaultClusterName at h ⊢
  by_cases h1 : name ∈ ns
  · rw [if_pos h1] at h ⊢
    have ht : t = defaultString s name := (Except.ok.inj h).symm
    subst ht
    exact ⟨by rw [defaultString_idem], presStr_defaultString s name⟩
  · rw [if_neg h1] at h ⊢
    rcases ns with _ | ⟨a, _ | ⟨b, rest⟩⟩
    · have h' : (if s ≠ "" then (Except.ok s : Except String String)
          else .error ("could not imply default cluster name for context: " ++ name)) =
            .ok t := h
      by_cases hs : s = ""
      · rw [if_neg (not_not_intro hs)] at h'
        exact Except.noConfusion h'
      · rw [if_pos hs] at h'
        have ht : t = s := (Except.ok.inj h').symm
        subst ht
        refine ⟨?_, fun _ => rfl⟩
        show (if t ≠ "" then (Except.ok t : Except String String)
            else .error ("could not imply default cluster name for context: " ++ name)) =
          .ok t
        rw [if_pos hs]
    · have ht : t = defaultString s a := (Except.ok.inj h).symm
      subst ht
      exact ⟨congrArg Except.ok (defaultString_idem s a), presStr_defaultString s a⟩
    · have h' : (if cn ∈ a :: b :: rest then
            (Except.ok (defaultString s cn) : Except String String)
          else if s ≠ "" then .ok s
          else .error ("could not imply default cluster name for context: " ++ name)) =
            .ok t := h
      by_cases h2 : cn ∈ a :: b :: rest
      · rw [if_pos h2] at h'
        have ht : t = defaultString s cn := (Except.ok.inj h').symm
        subst ht
        refine ⟨?_, presStr_defaultString s cn⟩
        show (if cn ∈ a :: b :: rest then
              (Except.ok (defaultString (defaultString s cn) cn) : Except String String)
            else if defaultString s cn ≠ "" then .ok (defaultString s cn)
            else .error ("could not imply default cluster name for context: " ++ name)) =
          .ok (defaultString s cn)
        rw [if_pos h2, defaultString_idem]
      · rw [if_neg h2] at h'
        by_cases hs : s = ""
        · rw [if_neg (not_not_intro hs)] at h'
          exact Except.noConfusion h'
        · rw [if_pos hs] at h'
          have ht : t = s := (Except.ok.inj h').symm
          subst ht
          refine ⟨?_, fun _ => rfl⟩
          show (if cn ∈ a :: b :: rest then
                (Except.ok (defaultString t cn) : Except String String)
              else if t ≠ "" then .ok t
              else .error ("could not imply default cluster name for context: " ++ name)) =
            .ok t
          rw [if_neg h2, if_pos hs]

theorem defaultControllerName_ok (ns : List String) (cn s name t : String)
    (h : defaultControllerName ns cn s name = .ok t) :
    defaultControllerName ns cn t name = .ok t ∧ presStr s t := by
  unfold defaultControllerName at h ⊢
  by_cases h1 : name ∈ ns
  · rw [if_pos h1] at h ⊢
    have ht : t = defaultString s name := (Except.ok.inj h).symm
    subst ht
    exact ⟨by rw [defaultString_idem], presStr_defaultString s name⟩
  · rw [if_neg h1] at h ⊢
    rcases ns with _ | ⟨a, _ | ⟨b, rest⟩⟩
    · have h' : (if s ≠ "" then (Except.ok s : Except String String)
          else .error ("could not imply default controller name for cluster: " ++ name)) =
            .ok t := h
      by_cases hs : s = ""
      · rw [if_neg (not_not_intro hs)] at h'
        exact Except.noConfusion h'
      · rw [if_pos hs] at h'
        have ht : t = s := (Except.ok.inj h').symm
        subst ht
        refine ⟨?_, fun _ => rfl⟩
        show (if t ≠ "" then (Except.ok t : Except String String)
            else .error ("could not imply default controller name for cluster: " ++ name)) =
          .ok t
        rw [if_pos hs]
    · have ht : t = defaultString s a := (Except.ok.inj h).symm
      subst ht
      exact ⟨congrArg Except.ok (defaultString_idem s a), presStr_defaultString s a⟩
    · have h' : (if cn ∈ a :: b :: rest then
            (Except.ok (defaultString s cn) : Except String String)
          else if s ≠ "" then .ok s
          else .error ("could not imply default controller name for cluster: " ++ name)) =
            .ok t := h
      by_cases h2 : cn ∈ a :: b :: rest
      · rw [if_pos h2] at h'
        have ht : t = defaultString s cn := (Except.ok.inj h').symm
        subst ht
        refine ⟨?_, presStr_defaultString s cn⟩
        show (if cn ∈ a :: b :: rest then
              (Except.ok (defaultString (defaultString s cn) cn) : Except String String)
            else if defaultString s cn ≠ "" then .ok (defaultString s cn)
            else .error ("could not imply default controller name for cluster: " ++ name)) =
          .ok (defaultString s cn)
        rw [if_pos h2, defaultString_idem]
      · rw [if_neg h2] at h'
        by_cases hs : s = ""
        · rw [if_neg (not_not_intro hs)] at h'
          exact Except.noConfusion h'
        · rw [if_pos hs] at h'
          have ht : t = s := (Except.ok.inj h').symm
          subst ht
          refine ⟨?_, fun _ => rfl⟩
          show (if cn ∈ a :: b :: rest then
                (Except.ok (defaultString t cn) : Except String String)
              else if t ≠ "" then .ok t
              else .error ("could not imply default controller name for cluster: " ++ name)) =
            .ok t
          rw [if_neg h2, if_pos hs]

theorem defaultContextName_ok (ns : List String) (s t : String)
    (h : defaultContextName ns s = .ok t) :
    defaultContextName ns t = .ok t ∧ presStr s t := by
  unfold defaultContextName at h ⊢
  rcases ns with _ | ⟨a, _ | ⟨b, rest⟩⟩
  · have h' : (if s ≠ "" then (Except.ok s : Except String String)
        else .error "could not imply default current context") = .ok t := h
    by_cases hs : s = ""
    · rw [if_neg (not_not_intro hs)] at h'
      exact Except.noConfusion h'
    · rw [if_pos hs] at h'
      have ht : t = s := (Except.ok.inj h').symm
      subst ht
      refine ⟨?_, fun _ => rfl⟩
      show (if t ≠ "" then (Except.ok t : Except String String)
          else .error "could not imply default current context") = .ok t
      rw [if_pos hs]
  · have ht : t = defaultString s a := (Except.ok.inj h).symm
    subst ht
    exact ⟨congrArg Except.ok (defaultString_idem s a), presStr_defaultString s a⟩
  · have h' : (if ("default" : String) ∈ a :: b :: rest then
          (Except.ok (defaultString s "default") : Except String String)
        else if s ≠ "" then .ok s
        else .error "could not imply default current context") = .ok t := h
    by_cases h2 : ("default" : String) ∈ a :: b :: rest
    · rw [if_pos h2] at h'
      have ht : t = defaultString s "default" := (Except.ok.inj h').symm
      subst ht
      refine ⟨?_, presStr_defaultString s "default"⟩
      show (if ("default" : String) ∈ a :: b :: rest then
            (Except.ok (defaultString (defaultString s "default") "default") :
              Except String String)
          else if defaultString s "default" ≠ "" then .ok (defaultString s "default")
          else .error "could not imply default current context") =
        .ok (defaultString s "default")
      rw [if_pos h2, defaultString_idem]
    · rw [if_neg h2] at h'
      by_cases hs : s = ""
      · rw [if_neg (not_not_intro hs)] at h'
        exact Except.noConfusion h'
      · rw [if_pos hs] at h'
        have ht : t = s := (Except.ok.inj h').symm
        subst ht
        refine ⟨?_, fun _ => rfl⟩
        show (if ("default" : String) ∈ a :: b :: rest then
              (Except.ok (defaultString t "default") : Except String String)
            else if t ≠ "" then .ok t
            else .error "could not imply default current context") = .ok t
        rw [if_neg h2, if_pos hs]

theorem clusterEntryStep_ok (ns : List String) (cn : String) (e e' : Named Cluster)
    (h : clusterEntryStep ns cn e = .ok e') :
    e'.Name = e.Name ∧ clusterEntryStep ns cn e' = .ok e' ∧ PresCluster e.Body e'.Body := by
  unfold clusterEntryStep at h
  cases hc : defaultControllerName ns cn e.Body.Controller e.Name with
  | error err => rw [hc, exbind_error] at h; exact Except.noConfusion h
  | ok ctl =>
    rw [hc, exbind_ok] at h
    have he' : e' = ⟨e.Name, { e.Body with
        Bin := defaultString e.Body.Bin "kubectl", Controller := ctl }⟩ :=
      (Except.ok.inj h).symm
    obtain ⟨hidem, hpres⟩ := defaultControllerName_ok ns cn e.Body.Controller e.Name ctl hc
    subst he'
    refine ⟨rfl, ?_, ⟨rfl, rfl, rfl, presStr_defaultString _ _, hpres⟩⟩
    simp only [clusterEntryStep, hidem, exbind_ok, defaultString_idem]

theorem applyControllerDefaults_idem (l : List (Named Controller)) :
    applyControllerDefaults (applyControllerDefaults l) = applyControllerDefaults l := by
  unfold applyControllerDefaults
  rw [List.map_map]
  apply List.map_congr_left
  intro e _
  obtain ⟨n, b⟩ := e
  obtain ⟨d1, d2, d3, d4, d5⟩ := b
  simp [Function.comp, defaultString_idem]

theorem applyControllerDefaults_names (l : List (Named Controller)) :
    namesOf (applyControllerDefaults l) = namesOf l := by
  unfold applyControllerDefaults namesOf
  rw [List.map_map]
  apply List.map_congr_left
  intro e _
  rfl

theorem applyControllerDefaults_presList (l : List (Named Controller)) :
    PresList PresController l (applyControllerDefaults l) := by
  unfold applyControllerDefaults
  refine ⟨le_of_eq (List.length_map l _).symm, ?_⟩
  rw [← List.length_map l (fun e => (⟨e.Name, { e.Body with
      DeploymentName := defaultString e.Body.DeploymentName "optimize-controller-manager",
      Namespace := defaultString e.Body.Namespace "stormforge-system" }⟩ : Named Controller)),
    List.take_length]
  induction l with
  | nil => exact List.Forall₂.nil
  | cons e rest ih =>
    exact List.Forall₂.cons
      ⟨rfl, presStr_defaultString _ _, presStr_defaultString _ _, rfl, rfl, rfl⟩ ih

theorem applyContextDefault1_ok (sn an kn : List String) (cn : String)
    (e e' : Named Context) (h : applyContextDefault1 sn an kn cn e = .ok e') :
    e'.Name = e.Name ∧ applyContextDefault1 sn an kn cn e' = .ok e' ∧
      PresContext e.Body e'.Body := by
  unfold applyContextDefault1 at h
  cases hs : defaultServerName sn e.Body.Server e.Name with
  | error err => rw [hs, exbind_error] at h; exact Except.noConfusion h
  | ok sv =>
    rw [hs, exbind_ok] at h
    cases ha : defaultAuthorizationName an e.Body.Authorization e.Name sv with
    | error err => rw [ha, exbind_error] at h; exact Except.noConfusion h
    | ok av =>
      rw [ha, exbind_ok] at h
      cases hk : defaultClusterName kn cn e.Body.Cluster e.Name with
      | error err => rw [hk, exbind_error] at h; exact Except.noConfusion h
      | ok kv =>
        rw [hk, exbind_ok] at h
        have he' : e' = ⟨e.Name, ⟨sv, av, kv⟩⟩ := (Except.ok.inj h).symm
        obtain ⟨hs2, hsp⟩ := defaultServerName_ok sn e.Body.Server e.Name sv hs
        obtain ⟨ha2, hap⟩ :=
          defaultAuthorizationName_ok an e.Body.Authorization e.Name sv av ha
        obtain ⟨hk2, hkp⟩ := defaultClusterName_ok kn cn e.Body.Cluster e.Name kv hk
        subst he'
        refine ⟨rfl, ?_, ⟨hsp, hap, hkp⟩⟩
        simp only [applyContextDefault1, hs2, ha2, hk2, exbind_ok]

theorem forall₂_take_both {α β : Type} {R : α → β → Prop} :
    ∀ (n : Nat) (l : List α) (m : List β), List.Forall₂ R l m →
      List.Forall₂ R (l.take n) (m.take n) := by
  intro n
  induction n with
  | zero =>
    intro l m _
    simp only [List.take_zero]
    exact List.Forall₂.nil
  | succ k ih =>
    intro l m h
    cases h with
    | nil => exact List.Forall₂.nil
    | cons hab hrest => exact List.Forall₂.cons hab (ih _ _ hrest)

theorem forall₂_chain {α β γ : Type} {R : α → β → Prop} {S : β → γ → Prop}
    {T : α → γ → Prop} (hc : ∀ a b c, R a b → S b c → T a c) :
    ∀ {l : List α} {m : List β} {n : List γ},
      List.Forall₂ R l m → List.Forall₂ S m n → List.Forall₂ T l n := by
  intro l m n h1
  induction h1 generalizing n with
  | nil =>
    intro h2
    cases h2
    exact List.Forall₂.nil
  | cons hab _ ih =>
    intro h2
    cases h2 with
    | cons hbc hrest2 => exact List.Forall₂.cons (hc _ _ _ hab hbc) (ih hrest2)

theorem presList_refl {β : Type} (P : β → β → Prop) (hP : ∀ b, P b b)
    (l : List (Named β)) : PresList P l l := by
  refine ⟨le_refl _, ?_⟩
  rw [List.take_length]
  induction l with
  | nil => exact List.Forall₂.nil
  | cons e rest ih => exact List.Forall₂.cons ⟨rfl, hP _⟩ ih

theorem presList_nil {β : Type} (P : β → β → Prop) (m : List (Named β)) :
    PresList P [] m := by
  refine ⟨Nat.zero_le _, ?_⟩
  rw [List.length_nil, List.take_zero]
  exact List.Forall₂.nil

theorem presList_trans {β : Type} (P : β → β → Prop)
    (hPt : ∀ a b c, P a b → P b c → P a c) (l m n : List (Named β))
    (h1 : PresList P l m) (h2 : PresList P m n) : PresList P l n := by
  obtain ⟨hl1, hf1⟩ := h1
  obtain ⟨hl2, hf2⟩ := h2
  refine ⟨hl1.trans hl2, ?_⟩
  have hf2' := forall₂_take_both l.length _ _ hf2
  rw [List.take_take, min_eq_left hl1] at hf2'
  exact forall₂_chain
    (fun a b c hab hbc => ⟨hbc.1.trans hab.1, hPt _ _ _ hab.2 hbc.2⟩) hf1 hf2'

theorem presList_add {β : Type} (P : β → β → Prop) (hP : ∀ b, P b b)
    (l seed : List (Named β)) [Decidable (l = [])] :
    PresList P l (if l = [] then seed else l) := by
  by_cases h : l = []
  · subst h
    rw [if_pos rfl]
    exact presList_nil P seed
  · rw [if_neg h]
    exact presList_refl P hP l

theorem PresServer_refl (s : Server) : PresServer s s :=
  ⟨presStr_refl _, presStr_refl _, presStr_refl _, presStr_refl _, presStr_refl _,
    presStr_refl _, presStr_refl _, presStr_refl _, presStr_refl _, presStr_refl _,
    presStr_refl _, presStr_refl _, presStr_refl _, presStr_refl _, presStr_refl _⟩

theorem PresServer_trans (a b c : Server) (h1 : PresServer a b) (h2 : PresServer b c) :
    PresServer a c := by
  obtain ⟨p1, p2, p3, p4, p5, p6, p7, p8, p9, p10, p11, p12, p13, p14, p15⟩ := h1
  obtain ⟨q1, q2, q3, q4, q5, q6, q7, q8, q9, q10, q11, q12, q13, q14, q15⟩ := h2
  exact ⟨presStr_trans p1 q1, presStr_trans p2 q2, presStr_trans p3 q3,
    presStr_trans p4 q4, presStr_trans p5 q5, presStr_trans p6 q6,
    presStr_trans p7 q7, presStr_trans p8 q8, presStr_trans p9 q9,
    presStr_trans p10 q10, presStr_trans p11 q11, presStr_trans p12 q12,
    presStr_trans p13 q13, presStr_trans p14 q14, presStr_trans p15 q15⟩

theorem PresCluster_refl (s : Cluster) : PresCluster s s :=
  ⟨rfl, rfl, rfl, presStr_refl _, presStr_refl _⟩

theorem PresCluster_trans (a b c : Cluster) (h1 : PresCluster a b)
    (h2 : PresCluster b c) : PresCluster a c := by
  obtain ⟨e1, e2, e3, p4, p5⟩ := h1
  obtain ⟨f1, f2, f3, q4, q5⟩ := h2
  exact ⟨f1.trans e1, f2.trans e2, f3.trans e3, presStr_trans p4 q4,
    presStr_trans p5 q5⟩

theorem PresController_refl (s : Controller) : PresController s s :=
  ⟨presStr_refl _, presStr_refl _, rfl, rfl, rfl⟩

theorem PresController_trans (a b c : Controller) (h1 : PresController a b)
    (h2 : PresController b c) : PresController a c := by
  obtain ⟨p1, p2, e3, e4, e5⟩ := h1
  obtain ⟨q1, q2, f3, f4, f5⟩ := h2
  exact ⟨presStr_trans p1 q1, presStr_trans p2 q2, f3.trans e3, f4.trans e4,
    f5.trans e5⟩

theorem PresAuthorization_refl (s : Authorization) : PresAuthorization s s := rfl

theorem PresAuthorization_trans (a b c : Authorization) (h1 : PresAuthorization a b)
    (h2 : PresAuthorization b c) : PresAuthorization a c := h2.trans h1

theorem PresContext_refl (s : Context) : PresContext s s :=
  ⟨presStr_refl _, presStr_refl _, presStr_refl _⟩

theorem PresContext_trans (a b c : Context) (h1 : PresContext a b)
    (h2 : PresContext b c) : PresContext a c := by
  obtain ⟨p1, p2, p3⟩ := h1
  obtain ⟨q1, q2, q3⟩ := h2
  exact ⟨presStr_trans p1 q1, presStr_trans p2 q2, presStr_trans p3 q3⟩

theorem addDefaultObjects_ne_servers (cn : String) (c : Config) :
    (addDefaultObjects cn c).Servers ≠ [] := by
  show (if c.Servers = [] then [⟨"default", emptyServer⟩] else c.Servers) ≠ []
  by_cases h : c.Servers = []
  · rw [if_pos h]; simp
  · rw [if_neg h]; exact h

theorem addDefaultObjects_ne_authorizations (cn : String) (c : Config) :
    (addDefaultObjects cn c).Authorizations ≠ [] := by
  show (if c.Authorizations = [] then [⟨"default", emptyAuthorization⟩]
      else c.Authorizations) ≠ []
  by_cases h : c.Authorizations = []
  · rw [if_pos h]; simp
  · rw [if_neg h]; exact h

theorem addDefaultObjects_ne_clusters (cn : String) (c : Config) :
    (addDefaultObjects cn c).Clusters ≠ [] := by
  show (if c.Clusters = [] then [⟨cn, emptyCluster⟩] else c.Clusters) ≠ []
  by_cases h : c.Clusters = []
  · rw [if_pos h]; simp
  · rw [if_neg h]; exact h

theorem addDefaultObjects_ne_controllers (cn : String) (c : Config) :
    (addDefaultObjects cn c).Controllers ≠ [] := by
  show (if c.Controllers = [] then [⟨cn, emptyController⟩] else c.Controllers) ≠ []
  by_cases h : c.Controllers = []
  · rw [if_pos h]; simp
  · rw [if_neg h]; exact h

theorem addDefaultObjects_ne_contexts (cn : String) (c : Config) :
    (addDefaultObjects cn c).Contexts ≠ [] := by
  show (if c.Contexts = [] then [⟨"default", emptyContext⟩] else c.Contexts) ≠ []
  by_cases h : c.Contexts = []
  · rw [if_pos h]; simp
  · rw [if_neg h]; exact h

theorem addDefaultObjects_id (cn : String) (c : Config) (h1 : c.Servers ≠ [])
    (h2 : c.Authorizations ≠ []) (h3 : c.Clusters ≠ []) (h4 : c.Controllers ≠ [])
    (h5 : c.Contexts ≠ []) : addDefaultObjects cn c = c := by
  unfold addDefaultObjects
  rw [if_neg h1, if_neg h2, if_neg h3, if_neg h4, if_neg h5]

theorem mapE_ne_nil {α β : Type} (f : α → Except String β) (l : List α)
    (l' : List β) (h : mapE f l = .ok l') (hl : l ≠ []) : l' ≠ [] := by
  intro hnil
  subst hnil
  have hlen := mapE_length f l [] h
  exact hl (List.length_eq_zero.mp hlen.symm)

theorem defaultLoader_inv (cn : String) (cfg cfg' : Config)
    (h : defaultLoader cn cfg = .ok cfg') :
    ∃ servers clusters contexts cur,
      applyServerDefaults (resolvedEnvironment cfg) (addDefaultObjects cn cfg).Servers
        = .ok servers ∧
      applyClusterDefaults (namesOf (addDefaultObjects cn cfg).Controllers) cn
        (addDefaultObjects cn cfg).Clusters = .ok clusters ∧
      mapE (applyContextDefault1 (namesOf servers)
        (namesOf (addDefaultObjects cn cfg).Authorizations) (namesOf clusters) cn)
        (addDefaultObjects cn cfg).Contexts = .ok contexts ∧
      defaultContextName (namesOf contexts)
        (addDefaultObjects cn cfg).CurrentContext = .ok cur ∧
      cfg' = { addDefaultObjects cn cfg with
        Servers := servers
        Clusters := clusters
        Controllers := applyControllerDefaults (addDefaultObjects cn cfg).Controllers
        Contexts := contexts
        CurrentContext := cur } := by
  simp only [defaultLoader, map_name_eta] at h
  cases hs : applyServerDefaults (resolvedEnvironment cfg)
      (addDefaultObjects cn cfg).Servers with
  | error err =>
    simp only [hs, exbind_error] at h
    exact Except.noConfusion h
  | ok servers =>
    simp only [hs, exbind_ok] at h
    cases hk : applyClusterDefaults (namesOf (addDefaultObjects cn cfg).Controllers) cn
        (addDefaultObjects cn cfg).Clusters with
    | error err =>
      simp only [hk, exbind_error] at h
      exact Except.noConfusion h
    | ok clusters =>
      simp only [hk, exbind_ok] at h
      cases hx : mapE (applyContextDefault1 (namesOf servers)
          (namesOf (addDefaultObjects cn cfg).Authorizations) (namesOf clusters) cn)
          (addDefaultObjects cn cfg).Contexts with
      | error err =>
        simp only [hx, exbind_error] at h
        exact Except.noConfusion h
      | ok contexts =>
        simp only [hx, exbind_ok] at h
        cases hcur : defaultContextName (namesOf contexts)
            (addDefaultObjects cn cfg).CurrentContext with
        | error err =>
          simp only [hcur, exbind_error] at h
          exact Except.noConfusion h
        | ok cur =>
          simp only [hcur, exbind_ok] at h
          exact ⟨servers, clusters, contexts, cur, rfl, rfl, hx, hcur,
            (Except.ok.inj h).symm⟩

theorem defaultLoader_eq (cn : String) (c : Config) (servers : List (Named Server))
    (clusters : List (Named Cluster)) (contexts : List (Named Context)) (cur : String)
    (hadd : addDefaultObjects cn c = c)
    (hs : applyServerDefaults (resolvedEnvironment c) c.Servers = .ok servers)
    (hk : applyClusterDefaults (namesOf c.Controllers) cn c.Clusters = .ok clusters)
    (hx : mapE (applyContextDefault1 (namesOf servers) (namesOf c.Authorizations)
        (namesOf clusters) cn) c.Contexts = .ok contexts)
    (hcur : defaultContextName (namesOf contexts) c.CurrentContext = .ok cur) :
    defaultLoader cn c = .ok { c with
      Servers := servers
      Clusters := clusters
      Controllers := applyControllerDefaults c.Controllers
      Contexts := contexts
      CurrentContext := cur } := by
  simp only [defaultLoader, hadd, map_name_eta, hs, exbind_ok, hk, hx, hcur]

/-- C4: default resolution is idempotent and never overwrites.  For every
configuration on which `defaultLoader` succeeds (same environment, same
discovered bootstrap cluster name), running it a second time on the result
is a no-op, and the result preserves the input: every original entry
survives in place with its name, each of its non-empty fields unchanged
(seeded default entries may only be appended to empty collections), the
current-context scalar is only filled when empty, and the stored
environment is untouched. -/
theorem defaultLoader_idem_pres (clusterName : String) (cfg cfg' : Config)
    (h : defaultLoader clusterName cfg = .ok cfg') :
    defaultLoader clusterName cfg' = .ok cfg' ∧ PresConfig cfg cfg' := by
  obtain ⟨servers, clusters, contexts, cur, hs, hk, hx, hcur, hcfg'⟩ :=
    defaultLoader_inv clusterName cfg cfg' h
  have hS : cfg'.Servers = servers := by rw [hcfg']
  have hA : cfg'.Authorizations = (addDefaultObjects clusterName cfg).Authorizations := by
    rw [hcfg']
  have hK : cfg'.Clusters = clusters := by rw [hcfg']
  have hC : cfg'.Controllers =
      applyControllerDefaults (addDefaultObjects clusterName cfg).Controllers := by
    rw [hcfg']
  have hX : cfg'.Contexts = contexts := by rw [hcfg']
  have hCC : cfg'.CurrentContext = cur := by rw [hcfg']
  have hE : cfg'.Environment = cfg.Environment := by rw [hcfg']; rfl
  have henv : resolvedEnvironment cfg' = resolvedEnvironment cfg := by
    unfold resolvedEnvironment
    rw [hE]
  have hne1 : cfg'.Servers ≠ [] := by
    rw [hS]
    exact mapE_ne_nil _ _ _ hs (addDefaultObjects_ne_servers clusterName cfg)
  have hne2 : cfg'.Authorizations ≠ [] := by
    rw [hA]
    exact addDefaultObjects_ne_authorizations clusterName cfg
  have hne3 : cfg'.Clusters ≠ [] := by
    rw [hK]
    exact mapE_ne_nil _ _ _ hk (addDefaultObjects_ne_clusters clusterName cfg)
  have hne4 : cfg'.Controllers ≠ [] := by
    rw [hC]
    intro hnil
    exact addDefaultObjects_ne_controllers clusterName cfg (List.map_eq_nil_iff.mp hnil)
  have hne5 : cfg'.Contexts ≠ [] := by
    rw [hX]
    exact mapE_ne_nil _ _ _ hx (addDefaultObjects_ne_contexts clusterName cfg)
  have hadd' : addDefaultObjects clusterName cfg' = cfg' :=
    addDefaultObjects_id clusterName cfg' hne1 hne2 hne3 hne4 hne5
  have hnamesC : namesOf cfg'.Controllers =
      namesOf (addDefaultObjects clusterName cfg).Controllers := by
    rw [hC, applyControllerDefaults_names]
  have hs2 : applyServerDefaults (resolvedEnvironment cfg') cfg'.Servers =
      .ok cfg'.Servers := by
    rw [henv, hS]
    exact mapE_idem _ (fun a b hab => (serverEntryStep_ok _ a b hab).2.1) _ servers hs
  have hk2 : applyClusterDefaults (namesOf cfg'.Controllers) clusterName cfg'.Clusters =
      .ok cfg'.Clusters := by
    rw [hnamesC, hK]
    exact mapE_idem _ (fun a b hab => (clusterEntryStep_ok _ clusterName a b hab).2.1)
      _ clusters hk
  have hx2 : mapE (applyContextDefault1 (namesOf cfg'.Servers)
      (namesOf cfg'.Authorizations) (namesOf cfg'.Clusters) clusterName) cfg'.Contexts =
      .ok cfg'.Contexts := by
    rw [hS, hA, hK, hX]
    exact mapE_idem _
      (fun a b hab => (applyContextDefault1_ok _ _ _ clusterName a b hab).2.1)
      _ contexts hx
  have hcur2 : defaultContextName (namesOf cfg'.Contexts) cfg'.CurrentContext =
      .ok cfg'.CurrentContext := by
    rw [hX, hCC]
    exact (defaultContextName_ok (namesOf contexts) _ cur hcur).1
  have hc2 : applyControllerDefaults cfg'.Controllers = cfg'.Controllers := by
    rw [hC, applyControllerDefaults_idem]
  have hrun2 := defaultLoader_eq clusterName cfg' cfg'.Servers cfg'.Clusters
    cfg'.Contexts cfg'.CurrentContext hadd' hs2 hk2 hx2 hcur2
  refine ⟨?_, ?_, ?_, ?_, ?_, ?_, ?_, hE⟩
  · rw [hrun2, hc2]
  · rw [hS]
    refine presList_trans PresServer PresServer_trans cfg.Servers
      ((addDefaultObjects clusterName cfg).Servers) servers ?_ ?_
    · exact presList_add PresServer PresServer_refl cfg.Servers
        [⟨"default", emptyServer⟩]
    · exact mapE_presList PresServer _
        (fun a b hab =>
          ⟨(serverEntryStep_ok _ a b hab).1, (serverEntryStep_ok _ a b hab).2.2⟩)
        _ servers hs
  · rw [hA]
    exact presList_add PresAuthorization PresAuthorization_refl cfg.Authorizations
      [⟨"default", emptyAuthorization⟩]
  · rw [hK]
    refine presList_trans PresCluster PresCluster_trans cfg.Clusters
      ((addDefaultObjects clusterName cfg).Clusters) clusters ?_ ?_
    · exact presList_add PresCluster PresCluster_refl cfg.Clusters
        [⟨clusterName, emptyCluster⟩]
    · exact mapE_presList PresCluster _
        (fun a b hab =>
          ⟨(clusterEntryStep_ok _ clusterName a b hab).1,
            (clusterEntryStep_ok _ clusterName a b hab).2.2⟩)
        _ clusters hk
  · rw [hC]
    refine presList_trans PresController PresController_trans cfg.Controllers
      ((addDefaultObjects clusterName cfg).Controllers) _ ?_ ?_
    · exact presList_add PresController PresController_refl cfg.Controllers
        [⟨clusterName, emptyController⟩]
    · exact applyControllerDefaults_presList _
  · rw [hX]
    refine presList_trans PresContext PresContext_trans cfg.Contexts
      ((addDefaultObjects clusterName cfg).Contexts) contexts ?_ ?_
    · exact presList_add PresContext PresContext_refl cfg.Contexts
        [⟨"default", emptyContext⟩]
    · exact mapE_presList PresContext _
        (fun a b hab =>
          ⟨(applyContextDefault1_ok _ _ _ clusterName a b hab).1,
            (applyContextDefault1_ok _ _ _ clusterName a b hab).2.2⟩)
        _ contexts hx
  · rw [hCC]
    have hcc0 : (addDefaultObjects clusterName cfg).CurrentContext =
        cfg.CurrentContext := rfl
    have hp := (defaultContextName_ok (namesOf contexts) _ cur hcur).2
    rw [hcc0] at hp
    exact hp

/-- C4, witness: on a fully resolved configuration default resolution is the
identity, a second run is again the identity, and the configuration
preserves itself. -/
theorem defaultLoader_idem_pres_witness :
    defaultLoader "default" tinyCfg = .ok tinyCfg ∧ PresConfig tinyCfg tinyCfg :=
  ⟨by decide, (defaultLoader_idem_pres "default" tinyCfg tinyCfg (by decide)).2⟩

end config
